import Mathlib

/-!
Verification of core properties of the psycopg2-ctypes driver
(`psycopg2ct`), a pure-python PostgreSQL driver speaking to libpq
through ctypes.

The development shallowly embeds the parts of the source needed by the
properties under scrutiny:

* the adapter (literal-encoder) dispatch of `psycopg2ct/_impl/adapters.py`
  together with the adapter registrations performed at import time by
  `psycopg2ct/extensions.py` and `psycopg2ct/__init__.py`;
* the placeholder-substitution scanner `_combine_cmd_params` of
  `psycopg2ct/_impl/cursor.py`;
* the array decoder `parse_array` of `psycopg2ct/_impl/typecasts.py`;
* the row builder `_build_row` of `psycopg2ct/_impl/cursor.py`;
* the transaction / two-phase-commit state machine of
  `psycopg2ct/_impl/connection.py`;
* the fetch machinery (`fetchone` / `fetchmany` / `fetchall`) of
  `psycopg2ct/_impl/cursor.py`;
* the distributed-transaction identifier `Xid` of
  `psycopg2ct/_impl/xid.py`, including the python 2 base64 codec it
  relies upon.

The native client library (libpq) is an external collaborator; its
primitives appear as parameters (escaping functions, per-field wire
values and null flags, success of submitted server commands).  Python
exceptions are modelled with `Except`; python strings are modelled as
`List Char`.
-/

set_option maxRecDepth 4096

namespace Psycopg2ct

/-- The exception kinds raised by the embedded code paths.  The driver
taxonomy (`psycopg2ct/_impl/exceptions.py`) contributes
`ProgrammingError`, `InterfaceError` and `OperationalError`; the rest
are python built-in exceptions raised by the same code paths. -/
inductive PyErr where
  | programmingError (msg : String)
  | interfaceError (msg : String)
  | operationalError (msg : String)
  | valueError (msg : String)
  | typeError (msg : String)
  | keyError
  | indexError
  | assertionError
  deriving Repr, DecidableEq

/-! ## Literal Encoder: adapter dispatch

From `psycopg2ct/_impl/adapters.py` (`adapt`, the adapter classes, the
`built_in_adapters` registration loop) and the import-time
`register_adapter` calls of `psycopg2ct/extensions.py` lines 254-268 and
`psycopg2ct/__init__.py` lines 19-20.  The value universe is restricted
to the python values the claims quantify over: `None`, `bool`, `int`
and `str`. -/

/-- Python types of the modelled value universe, plus the ancestors
appearing in their method resolution order (python 2: `bool` derives
from `int`, `str` from `basestring`). -/
inductive PyType where
  | noneType
  | boolType
  | intType
  | strType
  | baseStringType
  | objectType
  deriving Repr, DecidableEq

/-- Modelled python values handed to the Literal Encoder. -/
inductive PyValue where
  | pyNone
  | pyBool (b : Bool)
  | pyInt (n : Int)
  | pyStr (s : String)
  deriving Repr, DecidableEq

/-- `type(value)`. -/
def PyValue.typeOf : PyValue → PyType
  | .pyNone => .noneType
  | .pyBool _ => .boolType
  | .pyInt _ => .intType
  | .pyStr _ => .strType

/-- `obj_type.mro()`: the method resolution order walked by `adapt`
(`psycopg2ct/_impl/adapters.py` lines 189-199). -/
def PyType.mro : PyType → List PyType
  | .noneType => [.noneType, .objectType]
  | .boolType => [.boolType, .intType, .objectType]
  | .intType => [.intType, .objectType]
  | .strType => [.strType, .baseStringType, .objectType]
  | .baseStringType => [.baseStringType, .objectType]
  | .objectType => [.objectType]

/-- The adapter classes reachable from the modelled value universe
(`psycopg2ct/extensions.py`: `NoneAdapter`, `Boolean`, `AsIs`,
`QuotedString`). -/
inductive Adapter where
  | NoneAdapter
  | Boolean
  | AsIs
  | QuotedString
  deriving Repr, DecidableEq

/-- Modelled from the spec: the definition of `register_adapter` is
imported by `psycopg2ct/extensions.py` line 8 from
`psycopg2ct._impl.adapters`, but its body is not present under the
sources; per the spec it is one of the "module-level adapter/type
registration functions" and it binds a python type to an adapter in the
global `adapters` registry (the registry that `adapt` consults under
the `ISQLQuote` protocol key).  `adaptersReg` is the state of that
registry after module import: the `built_in_adapters` loop of
`psycopg2ct/_impl/adapters.py` lines 241-242 followed by the
`register_adapter` calls of `psycopg2ct/extensions.py` lines 254-268
(which rebind `int` to `AsIs` and `str` to `QuotedString`) and of
`psycopg2ct/__init__.py` line 20 (`type(None)` to `NoneAdapter`).
The protocol component of the key is always `ISQLQuote` and is elided. -/
def adaptersReg : PyType → Option Adapter
  | .noneType => some .NoneAdapter
  | .boolType => some .Boolean
  | .intType => some .AsIs
  | .strType => some .QuotedString
  | .baseStringType => none
  | .objectType => none

/-- The connection facilities consulted by adapters once `prepare`d:
the libpq escaping primitive.  `PQescapeLiteral` is part of the native
client library, an external collaborator; it is a parameter of the
model. -/
structure ConnM where
  pgEscapeLiteral : String → String

/-- `str(obj)` on the modelled universe. -/
def PyValue.pyStrOf : PyValue → String
  | .pyNone => "None"
  | .pyBool b => if b then "True" else "False"
  | .pyInt n => toString n
  | .pyStr s => s

/-- Python truthiness on the modelled universe. -/
def PyValue.truthy : PyValue → Bool
  | .pyNone => false
  | .pyBool b => b
  | .pyInt n => n != 0
  | .pyStr s => s != ""

/-- `adapt(value)` (`psycopg2ct/_impl/adapters.py` lines 189-204): look
the exact type up in the registry, then each ancestor in mro order;
none of the modelled values defines `__conform__`, so a miss raises
`ProgrammingError`.  The walk over `obj_type` followed by
`obj_type.mro()[1:]` is exactly the walk over `obj_type.mro()`. -/
def adaptLookup : List PyType → Option Adapter
  | [] => none
  | t :: ts =>
    match adaptersReg t with
    | some a => some a
    | none => adaptLookup ts

def adapt (value : PyValue) : Except PyErr Adapter :=
  match adaptLookup (PyType.mro value.typeOf) with
  | some a => .ok a
  | none => .error (.programmingError "cannot adapt type")

/-- `getquoted()` of the adapter classes of `psycopg2ct/extensions.py`,
applied to the wrapped value after `prepare(conn)`:
`NoneAdapter.getquoted` (lines 205-210) returns `NULL`;
`Boolean.getquoted` renders `true`/`false` from the wrapped value's
truthiness; `AsIs.getquoted` returns `str(wrapped)`;
`QuotedString.getquoted` passes `str(obj)` through the connection's
`PQescapeLiteral` (the PG >= 9.0 branch, which returns the complete
quoted literal). -/
def Adapter.getquoted : Adapter → PyValue → ConnM → String
  | .NoneAdapter, _, _ => "NULL"
  | .Boolean, v, _ => if v.truthy then "true" else "false"
  | .AsIs, v, _ => v.pyStrOf
  | .QuotedString, v, conn => conn.pgEscapeLiteral v.pyStrOf

/-- `_getquoted(param, conn)` (`psycopg2ct/_impl/adapters.py` lines
207-214): adapt, prepare with the connection, render.  `prepare` only
stores the connection on the adapter, which the model realises by
passing `conn` to `getquoted`. -/
def _getquoted (param : PyValue) (conn : ConnM) : Except PyErr String := do
  let adapter ← adapt param
  return adapter.getquoted param conn

/-! ## Placeholder substitution: `_combine_cmd_params`

From `psycopg2ct/_impl/cursor.py` lines 839-920.  The command string is
walked with an index and one character of lookahead; `%%` is an escape,
`%(`...`)` begins a named placeholder, any other character after `%`
begins a positional placeholder whose format character must be `s` or a
space (`check_format_char`).  The embedding recurses structurally on
the unscanned suffix of the command; `cmd.find(sub, start, end)` calls
become searches relative to that suffix. -/

/-- Index of the first occurrence of `c` in `l`, if any
(python `find` with no bounds, relative to the suffix searched). -/
def listFind (c : Char) : List Char → Option Nat
  | [] => none
  | x :: xs => if x = c then some 0 else (listFind c xs).map (· + 1)

/-- Index of the first occurrence of `c` in `l` before position `stop`
(python `find(c, 0, stop)` relative to the suffix searched): the first
occurrence overall, provided it lies in the window. -/
def pyFindIn (l : List Char) (c : Char) (stop : Nat) : Option Nat :=
  match listFind c l with
  | some j => if j < stop then some j else none
  | none => none

/-- The query parameters: a sequence (positional style) or a mapping
(named style). -/
inductive Params where
  | seq (vals : List Psycopg2ct.PyValue)
  | map (pairs : List (String × Psycopg2ct.PyValue))
  deriving Repr

/-- `len(params)`. -/
def Params.length : Params → Nat
  | .seq vs => vs.length
  | .map ps => ps.length

/-- `params[key]`: keyed indexing; a sequence raises `TypeError`, a
missing key raises `KeyError`. -/
def Params.getByKey : Params → String → Except PyErr PyValue
  | .seq _, _ => .error (.typeError "list indices must be integers")
  | .map ps, k =>
    match ps.lookup k with
    | some v => .ok v
    | none => .error .keyError

/-- `params[param_num]`: positional indexing; an index past the end
raises `IndexError`, a mapping raises `KeyError` (its keys are
strings). -/
def Params.getByIdx : Params → Nat → Except PyErr PyValue
  | .seq vs, i =>
    match vs.get? i with
    | some v => .ok v
    | none => .error .indexError
  | .map _, _ => .error .keyError

/-- The `arg_values` accumulator of `_combine_cmd_params`: `None`
until the first placeholder, then a list (positional) or a dict
(named, modelled as an association list in insertion order). -/
inductive ArgValues where
  | noneAV
  | seq (vals : List String)
  | map (pairs : List (String × String))
  deriving Repr

/-- The named-placeholder accumulation step: `if arg_values is None:
arg_values = {}` / `if key not in arg_values: arg_values[key] =
_getquoted(params[key], conn)` (lines 883-886).  Resolution is cached:
a key already present is not resolved again.  A positional accumulator
here is unreachable (it forces `named_args_format is False`, on which
the branch has already raised); python would raise `TypeError` on the
item assignment. -/
def argAddNamed (av : ArgValues) (key : String) (params : Params) (conn : ConnM) :
    Except PyErr ArgValues :=
  match av with
  | .seq _ => .error (.typeError "list indices must be integers")
  | .noneAV | .map _ =>
    let m := match av with
      | .map m => m
      | _ => []
    if (m.lookup key).isSome then .ok (.map m)
    else do
      let v ← params.getByKey key
      let q ← _getquoted v conn
      return .map (m ++ [(key, q)])

/-- The positional accumulation step: `if arg_values is None:
arg_values = []` / `arg_values.append(value)` (lines 901-905).  A dict
accumulator is unreachable (it forces `named_args_format is True`, on
which the branch has already raised); python would raise
`AttributeError` on `append`. -/
def argAppend (av : ArgValues) (q : String) : Except PyErr ArgValues :=
  match av with
  | .map _ => .error (.typeError "dict has no append")
  | .noneAV => .ok (.seq [q])
  | .seq vs => .ok (.seq (vs ++ [q]))

/-- The scanning loop of `_combine_cmd_params` (lines 859-910),
recursing on the unscanned suffix of `cmd`.  State: the suffix, the
positional counter `param_num`, the accumulator `arg_values` and the
style flag `named_args_format` (`none` / `some true` / `some false`
for python `None` / `True` / `False`).  `cmd[idx + 1]` past the end of
the string raises `IndexError`.  In the named branch, `max_lookahead =
cmd.find('%', idx + 2)` and `end = cmd.find(')', idx + 2,
max_lookahead)`; a negative `max_lookahead` makes the second `find`
stop one character before the end of the string (python slice
semantics), which relative to the suffix after `%(` is position
`r2.length - 1`.  After a named placeholder the index advances by one
only, so scanning resumes at the `(`. -/
def scanLoop (params : Params) (conn : ConnM) :
    List Char → Nat → ArgValues → Option Bool →
    Except PyErr (ArgValues × Option Bool)
  | [], _, av, naf => .ok (av, naf)
  | c :: rest, pn, av, naf =>
    if c = '%' then
      match rest with
      | [] => .error .indexError
      | c1 :: r2 =>
        if c1 = '%' then
          scanLoop params conn r2 pn av naf
        else if c1 = '(' then
          if naf = some false then
            .error (.valueError "argument formats cannot be mixed")
          else
            match pyFindIn r2 ')' (match listFind '%' r2 with
                | some m => m
                | none => r2.length - 1) with
            | none =>
              .error (.programmingError "incomplete placeholder: %( without )")
            | some e =>
              let key := String.mk (r2.take e)
              match argAddNamed av key params conn with
              | .error err => .error err
              | .ok av' =>
                match r2.get? (e + 1) with
                | none => .error .indexError
                | some fc =>
                  if fc = 's' ∨ fc = ' ' then
                    scanLoop params conn (c1 :: r2) pn av' (some true)
                  else .error (.valueError "unsupported format character")
        else
          if naf = some true then
            .error (.valueError "argument formats cannot be mixed")
          else
            if c1 = 's' ∨ c1 = ' ' then
              match Params.getByIdx params pn with
              | .error err => .error err
              | .ok v =>
                match _getquoted v conn with
                | .error err => .error err
                | .ok q =>
                  match argAppend av q with
                  | .error err => .error err
                  | .ok av' => scanLoop params conn r2 (pn + 1) av' (some false)
            else .error (.valueError "unsupported format character")
    else
      scanLoop params conn rest pn av naf
termination_by l => l.length
decreasing_by all_goals simp <;> omega

/-- The placeholder tokens of a template, in scan order: `false` for a
positional placeholder, `true` for a named one.  This mirrors exactly
the positions at which `scanLoop` classifies a placeholder (tokens are
recorded at the point the scanner fixes `named_args_format`, before
format-character validation); the token stream stops where the scanner
necessarily raises for a reason other than style mixing (truncated
`%` lookahead, named placeholder without a closing parenthesis). -/
def phTokens : List Char → List Bool
  | [] => []
  | c :: rest =>
    if c = '%' then
      match rest with
      | [] => []
      | c1 :: r2 =>
        if c1 = '%' then phTokens r2
        else if c1 = '(' then
          match pyFindIn r2 ')' (match listFind '%' r2 with
              | some m => m
              | none => r2.length - 1) with
          | none => []
          | some _ => true :: phTokens (c1 :: r2)
        else false :: phTokens r2
    else phTokens rest
termination_by l => l.length
decreasing_by all_goals simp <;> omega

/-- Arguments for the final `cmd % arg_values` interpolation. -/
inductive FmtArgs where
  | tup (vals : List String)
  | fmap (pairs : List (String × String))
  deriving Repr

/-- Skip the space flags of a format specification and expect the `s`
conversion character, returning the remainder of the format string (or
`none` for a conversion the modelled formatter subset rejects).  The
length bound carried in the result feeds the termination argument of
`pyFormatAux`. -/
def expectS : (l : List Char) → Option { t : List Char // t.length < l.length }
  | [] => none
  | c :: rest =>
    if c = ' ' then
      (expectS rest).map (fun ⟨t, ht⟩ => ⟨t, by simp; omega⟩)
    else if c = 's' then
      some ⟨rest, by simp⟩
    else none

/-- The python `%` string-interpolation operator, restricted to the
format specifications reachable after `check_format_char` validation:
`%%`, `%(key)s` and `%s`, the latter two with optional space flags
before the conversion character (other flags, width or precision are
never produced by the driver and render as errors here).  Positional
conversions with a mapping argument and keyed conversions with a tuple
argument raise `TypeError`; leftover tuple arguments after the walk
raise `TypeError` as in python. -/
def pyFormatAux (args : FmtArgs) : List Char → Nat → Except PyErr (List Char × Nat)
  | [], pos => .ok ([], pos)
  | c :: rest, pos =>
    if c = '%' then
      match rest with
      | [] => .error (.valueError "incomplete format")
      | c1 :: r2 =>
        if c1 = '%' then
          match pyFormatAux args r2 pos with
          | .error err => .error err
          | .ok (out, pos') => .ok ('%' :: out, pos')
        else if c1 = '(' then
          match listFind ')' r2 with
          | none => .error (.valueError "incomplete format key")
          | some e =>
            let key := String.mk (r2.take e)
            match expectS (r2.drop (e + 1)) with
            | none => .error (.valueError "unsupported format character")
            | some ⟨r3, h3⟩ =>
              match args with
              | .tup _ => .error (.typeError "format requires a mapping")
              | .fmap m =>
                match m.lookup key with
                | none => .error .keyError
                | some v =>
                  match pyFormatAux args r3 pos with
                  | .error err => .error err
                  | .ok (out, pos') => .ok (v.toList ++ out, pos')
        else
          match expectS (c1 :: r2) with
          | none => .error (.valueError "unsupported format character")
          | some ⟨r3, h3⟩ =>
            match args with
            | .fmap _ => .error (.typeError "format does not take a mapping")
            | .tup vs =>
              match vs.get? pos with
              | none => .error (.typeError "not enough arguments for format string")
              | some v =>
                match pyFormatAux args r3 (pos + 1) with
                | .error err => .error err
                | .ok (out, pos') => .ok (v.toList ++ out, pos')
    else
      match pyFormatAux args rest pos with
      | .error err => .error err
      | .ok (out, pos') => .ok (c :: out, pos')
termination_by l _ => l.length
decreasing_by
  all_goals simp_wf
  all_goals try omega
  all_goals (simp only [List.length_drop, List.length_cons] at h3 ⊢ <;> omega)


/-- `cmd % args`. -/
def pyFormat (cmd : List Char) (args : FmtArgs) : Except PyErr (List Char) := do
  let (out, pos) ← pyFormatAux args cmd 0
  match args with
  | .tup vs =>
    if pos < vs.length then
      .error (.typeError "not all arguments converted during string formatting")
    else return out
  | .fmap _ => return out

/-- `not arg_values` (python truthiness of the accumulator). -/
def ArgValues.notTruthy : ArgValues → Bool
  | .noneAV => true
  | .seq vs => vs.isEmpty
  | .map ps => ps.isEmpty

/-- The accumulator as interpolation arguments (`arg_values =
tuple(arg_values)` for the positional style). -/
def ArgValues.toFmtArgs : ArgValues → FmtArgs
  | .noneAV => .tup []
  | .seq vs => .tup vs
  | .map ps => .fmap ps

/-- `_combine_cmd_params(cmd, params, conn)` (lines 839-920): return
the command unchanged when it holds no `%`; otherwise scan it, check
the positional argument count, and interpolate (`cmd % tuple()` when
no placeholder was found, to unescape `%%`). -/
def _combine_cmd_params (cmd : List Char) (params : Params) (conn : ConnM) :
    Except PyErr (List Char) :=
  if ¬ cmd.contains '%' then .ok cmd
  else do
    let (av, naf) ← scanLoop params conn cmd 0 .noneAV none
    if naf = some false then
      match av with
      | .seq vs =>
        if vs.length ≠ params.length then
          .error (.typeError "not all arguments converted during string formatting")
        else if ArgValues.notTruthy (.seq vs) then pyFormat cmd (.tup [])
        else pyFormat cmd (ArgValues.toFmtArgs (.seq vs))
      | _ =>
        -- unreachable: a `False` flag forces a positional accumulator
        if av.notTruthy then pyFormat cmd (.tup [])
        else pyFormat cmd av.toFmtArgs
    else
      if av.notTruthy then pyFormat cmd (.tup [])
      else pyFormat cmd av.toFmtArgs

/-! ## Array decoding: `parse_array`

From `psycopg2ct/_impl/typecasts.py` lines 101-158
(`parse_array.__call__`).  The scanner walks the literal between the
outer braces with an index `i`, a stack of partially built (possibly
nested) arrays, and for each element an inner loop accumulating the
element characters while counting quotes and honouring backslash
escapes.  `typecast(caster, value, length, cursor)` simply invokes the
element caster, which the embedding takes as a function parameter; a
null element passes python `None` (here `Option.none`) and length `0`
to it. -/

/-- A decoded array is a nested list of element-caster results. -/
inductive PgElem (α : Type) where
  | atom (v : α)
  | arr (elems : List (PgElem α))
  deriving Repr

/-- `str.lower()` on ascii characters. -/
def pyLowerChar (c : Char) : Char :=
  if 'A' ≤ c ∧ c ≤ 'Z' then Char.ofNat (c.toNat + 32) else c

/-- The inner element loop (lines 129-150): starting at `i`, consume
characters into `buf` until an unquoted `}` or `,` (`break`, leaving
`i` on the delimiter) or until `value_length` is reached; `"` toggles
the quote parity without being buffered, `\\` escapes the next
character into the buffer.  Returns the stop index and the buffer,
bundled with the facts that the index never moves backwards and moves
strictly forward unless the loop breaks immediately — the latter feeds
the termination argument of the outer loop. -/
def elemScan (s : List Char) (vlen : Nat) :
    (i : Nat) → (quotes : Nat) → (escapeChar : Bool) → (buf : List Char) →
    {r : Nat × List Char //
      i ≤ r.1 ∧ ∀ c, i < vlen → s.get? i = some c → escapeChar = false →
        ¬(quotes % 2 = 0 ∧ (c = '}' ∨ c = ',')) → i < r.1}
  | i, quotes, escapeChar, buf =>
    if h : i < vlen then
      match hg : s.get? i with
      | none =>
        ⟨(i, buf), Nat.le_refl i, fun c _ hc _ _ => by cases hc⟩
      | some c =>
        if hesc : ¬ escapeChar then
          if c = '"' then
            let r := elemScan s vlen (i + 1) (quotes + 1) false buf
            ⟨r.val, Nat.le_trans (Nat.le_succ i) r.2.1,
             fun _ _ _ _ _ => Nat.lt_of_lt_of_le (Nat.lt_succ_self i) r.2.1⟩
          else if c = '\\' then
            let r := elemScan s vlen (i + 1) quotes true buf
            ⟨r.val, Nat.le_trans (Nat.le_succ i) r.2.1,
             fun _ _ _ _ _ => Nat.lt_of_lt_of_le (Nat.lt_succ_self i) r.2.1⟩
          else if hbr : quotes % 2 = 0 ∧ (c = '}' ∨ c = ',') then
            ⟨(i, buf), Nat.le_refl i,
             fun c' _ hc' _ hn => by
               cases hc'
               exact absurd hbr hn⟩
          else
            let r := elemScan s vlen (i + 1) quotes false (buf ++ [c])
            ⟨r.val, Nat.le_trans (Nat.le_succ i) r.2.1,
             fun _ _ _ _ _ => Nat.lt_of_lt_of_le (Nat.lt_succ_self i) r.2.1⟩
        else
          let r := elemScan s vlen (i + 1) quotes false (buf ++ [c])
          ⟨r.val, Nat.le_trans (Nat.le_succ i) r.2.1,
           fun _ _ _ hesc' _ => absurd hesc' (by simpa using hesc)⟩
    else
      ⟨(i, buf), Nat.le_refl i, fun _ hlt _ _ _ => absurd hlt h⟩
termination_by i _ _ _ => vlen - i
decreasing_by all_goals omega

/-- The outer scanning loop of `parse_array.__call__` (lines 111-158):
`{` pushes a fresh sub-array, `}` pops (an excess `}` exhausts the
stack and raises `IndexError` at `stack[-1]`), `,` and space are
skipped, and any other character starts an element scan.  An element
whose accumulated buffer has exactly 4 characters spelling `null`
case-insensitively is cast from python `None`; every other buffer is
cast from its characters and length.  At the end the scanner returns
the top of the stack (`return stack[-1]`). -/
def parseArrayLoop {α : Type} (caster : Option (List Char) → Nat → α)
    (s : List Char) (vlen : Nat) :
    Nat → List (List (PgElem α)) → Except PyErr (List (PgElem α))
  | i, stack =>
    if hi : i < vlen then
      match hg : s.get? i with
      | none => .error .indexError
      | some c =>
        if c = '{' then
          parseArrayLoop caster s vlen (i + 1) ([] :: stack)
        else if hcl : c = '}' then
          match stack with
          | top :: parent :: rest =>
            parseArrayLoop caster s vlen (i + 1) ((parent ++ [.arr top]) :: rest)
          | _ => .error .indexError
        else if c = ',' ∨ c = ' ' then
          parseArrayLoop caster s vlen (i + 1) stack
        else
          let r := elemScan s vlen i 0 false []
          let strBuf := r.val.2
          let val :=
            if strBuf.length = 4 ∧ strBuf.map pyLowerChar = "null".toList then
              caster none 0
            else caster (some strBuf) strBuf.length
          match stack with
          | top :: rest =>
            parseArrayLoop caster s vlen r.val.1 ((top ++ [.atom val]) :: rest)
          | [] => .error .indexError
    else
      match stack with
      | top :: _ => .ok top
      | [] => .error .indexError
termination_by i _ => vlen - i
decreasing_by
  all_goals simp_wf
  all_goals try omega
  · rename_i hcb hcsp
    have hadv := (elemScan s vlen i 0 false []).2.2 c hi hg
      (by rfl)
      (by
        intro hx
        rcases hx.2 with hx2 | hx2
        · exact hcl hx2
        · exact hcsp (Or.inl hx2))
    omega

/-- `parse_array.__call__(value, length, cursor)` (lines 108-158) with
the element caster as a parameter: assert the outer braces (python
raises `IndexError` on an empty string before the assert fails,
`AssertionError` otherwise) and scan between them, starting with one
empty array on the stack. -/
def parse_array {α : Type} (caster : Option (List Char) → Nat → α)
    (s : List Char) : Except PyErr (List (PgElem α)) :=
  match s.get? 0, s.getLast? with
  | some c0, some cl =>
    if c0 = '{' ∧ cl = '}' then parseArrayLoop caster s (s.length - 1) 1 [[]]
    else .error .assertionError
  | _, _ => .error .indexError

/-- The element caster used for text arrays: `parse_string` under
`typecast` returns the value itself, so a null element decodes to
python `None` and any other element to its string. -/
def stringCaster (v : Option (List Char)) (_length : Nat) : Option String :=
  v.map fun cs => String.mk cs

/-! ## Row construction: `_build_row`

From `psycopg2ct/_impl/cursor.py` lines 798-824 (the default
tuple-building path, without a `row_factory`).  The native result
handle is an external collaborator, modelled by its per-column
accessors: `PQgetvalue` (the wire value, a string), `PQgetisnull` (the
null flag) and `PQgetlength`; `self._casts[i]` is the per-column
decoder selected by the Cast Registry, taken as a function parameter.
A cell of the produced row is `Option.none` for python `None` and
`some` of the decoder result otherwise. -/

/-- `_build_row(row_num)` for a fixed row: for each column, `val =
PQgetvalue(...)`; `if not val and PQgetisnull(...): val = None` —
python `not val` on the string is the emptiness test — `else: val =
typecast(casts[i], val, PQgetlength(...), self)`. -/
def _build_row {α : Type} (nfields : Nat)
    (getvalue : Nat → List Char) (getisnull : Nat → Bool)
    (getlength : Nat → Nat) (casts : Nat → List Char → Nat → α) :
    List (Option α) :=
  (List.range nfields).map fun i =>
    let val := getvalue i
    if val = [] ∧ getisnull i then none
    else some (casts i val (getlength i))

/-! ## Connection state machine

From `psycopg2ct/_impl/connection.py`: the decorators `check_closed`,
`check_async`, `check_tpc` and `check_notrans` (lines 30-64), the
transaction primitives `_begin_transaction`, `_commit`, `_rollback`,
`_execute_command` and `_execute_tpc_command` (lines 575-656), and the
operations `commit`, `rollback`, `reset`, `set_session`, `tpc_begin`,
`tpc_prepare`, `tpc_commit`, `tpc_rollback` (lines 150-401, 599-625).

Server interaction (`PQexec` inside `_execute_command`) is an external
collaborator: each operation receives an oracle, a list of booleans
giving the success of the successive server commands it issues; a
failed command raises `OperationalError` at the point the source
raises, leaving the state mutations performed so far in place.  An
operation returns the post-state paired with the raised error, if
any. -/

/-- `consts.STATUS_*` (connection status values actually assumed by
the modelled operations). -/
inductive ConnStatus where
  | setup
  | ready
  | begin
  | prepared
  deriving Repr, DecidableEq

/-- The `Xid` payload stored in `Connection._tpc_xid`.  Only its
presence matters to the state machine; the token rendered into
`PREPARE TRANSACTION` commands does not influence the state. -/
structure XidTok where
  tid : String
  deriving Repr, DecidableEq

/-- The connection state touched by the transaction / TPC operations. -/
structure ConnSt where
  closed : Bool
  asyncFlag : Bool
  status : ConnStatus
  autocommit : Bool
  tpcXid : Option XidTok
  mark : Int
  deriving Repr, DecidableEq

/-- State after `_connect_sync` of a fresh synchronous connection:
`STATUS_READY`, autocommit off, no TPC transaction
(`Connection.__init__` lines 84-126). -/
def ConnSt.init : ConnSt :=
  { closed := false
    asyncFlag := false
    status := .ready
    autocommit := false
    tpcXid := none
    mark := 0 }

/-- The outcome of one operation: the post-state and the error raised,
if any (`none` when the operation returned normally). -/
abbrev ConnStep := ConnSt × Option PyErr

/-- `_execute_command(command)`: one server command; a failure raises
`OperationalError` without touching the state (lines 580-589).  The
oracle supplies the outcome; the remainder of the oracle is returned
for operations issuing several commands. -/
def execCommand (oracle : List Bool) : Bool × List Bool :=
  match oracle with
  | [] => (true, [])
  | b :: rest => (b, rest)

/-- `_begin_transaction` (lines 575-578): issue `BEGIN` and move to
`STATUS_BEGIN` exactly when ready and not in autocommit. -/
def ConnSt.beginTransaction (s : ConnSt) (oracle : List Bool) : ConnStep :=
  if s.status = .ready ∧ ¬ s.autocommit then
    let (ok, _) := execCommand oracle
    if ok then ({ s with status := .begin }, none)
    else (s, some (.operationalError "BEGIN failed"))
  else (s, none)

/-- `_commit` (lines 644-649): no-op unless in a transaction and not
autocommit; the mark is bumped before `COMMIT` is issued, so a failed
`COMMIT` leaves the connection in `STATUS_BEGIN` with the mark
bumped. -/
def ConnSt.commitInner (s : ConnSt) (oracle : List Bool) : ConnStep :=
  if s.autocommit ∨ s.status ≠ .begin then (s, none)
  else
    let s := { s with mark := s.mark + 1 }
    let (ok, _) := execCommand oracle
    if ok then ({ s with status := .ready }, none)
    else (s, some (.operationalError "COMMIT failed"))

/-- `_rollback` (lines 651-656), same shape as `_commit`. -/
def ConnSt.rollbackInner (s : ConnSt) (oracle : List Bool) : ConnStep :=
  if s.autocommit ∨ s.status ≠ .begin then (s, none)
  else
    let s := { s with mark := s.mark + 1 }
    let (ok, _) := execCommand oracle
    if ok then ({ s with status := .ready }, none)
    else (s, some (.operationalError "ROLLBACK failed"))

/-- `_execute_tpc_command(command, xid)` (lines 591-597): quote the
xid, run the command, bump the mark after success. -/
def ConnSt.execTpcCommand (s : ConnSt) (oracle : List Bool) : ConnStep :=
  let (ok, _) := execCommand oracle
  if ok then ({ s with mark := s.mark + 1 }, none)
  else (s, some (.operationalError "tpc command failed"))

/-- `check_closed` / `check_async` / `check_tpc` guard chain shared by
`commit` and `rollback` (decorator order: closed, async, tpc). -/
def ConnSt.guardClosedAsyncTpc (s : ConnSt) : Option PyErr :=
  if s.closed then some (.interfaceError "connection already closed")
  else if s.asyncFlag then some (.programmingError "cannot be used in asynchronous mode")
  else if s.tpcXid.isSome then
    some (.programmingError "cannot be used during a two-phase transaction")
  else none

/-- `Connection.commit` (lines 160-164): `check_closed`,
`check_async`, `check_tpc`, then `_commit`. -/
def ConnSt.commit (s : ConnSt) (oracle : List Bool) : ConnStep :=
  match s.guardClosedAsyncTpc with
  | some e => (s, some e)
  | none => s.commitInner oracle

/-- `Connection.rollback` (lines 154-158). -/
def ConnSt.rollback (s : ConnSt) (oracle : List Bool) : ConnStep :=
  match s.guardClosedAsyncTpc with
  | some e => (s, some e)
  | none => s.rollbackInner oracle

/-- `Connection.reset` (lines 166-174): `check_closed`, `check_async`,
one `ABORT; RESET ALL; ...` command, then ready / mark bump /
autocommit off / TPC cleared. -/
def ConnSt.reset (s : ConnSt) (oracle : List Bool) : ConnStep :=
  if s.closed then (s, some (.interfaceError "connection already closed"))
  else if s.asyncFlag then
    (s, some (.programmingError "cannot be used in asynchronous mode"))
  else
    let (ok, _) := execCommand oracle
    if ok then
      ({ s with status := .ready, mark := s.mark + 1, autocommit := false,
                tpcXid := none }, none)
    else (s, some (.operationalError "reset command failed"))

/-- `Connection.tpc_begin(xid)` (lines 366-381): `check_closed`,
`check_async`, ready-state and autocommit guards, then
`_begin_transaction` and storing the xid. -/
def ConnSt.tpcBegin (s : ConnSt) (xid : XidTok) (oracle : List Bool) : ConnStep :=
  if s.closed then (s, some (.interfaceError "connection already closed"))
  else if s.asyncFlag then
    (s, some (.programmingError "cannot be used in asynchronous mode"))
  else if s.status ≠ .ready then
    (s, some (.programmingError "tpc_begin must be called outside a transaction"))
  else if s.autocommit then
    (s, some (.programmingError "tpc_begin cannot be called in autocommit mode"))
  else
    match s.beginTransaction oracle with
    | (s', none) => ({ s' with tpcXid := some xid }, none)
    | (s', some e) => (s', some e)

/-- `Connection.tpc_prepare` (lines 393-401): requires an open TPC
transaction; `PREPARE TRANSACTION`, then `STATUS_PREPARED`. -/
def ConnSt.tpcPrepare (s : ConnSt) (oracle : List Bool) : ConnStep :=
  if s.closed then (s, some (.interfaceError "connection already closed"))
  else if s.asyncFlag then
    (s, some (.programmingError "cannot be used in asynchronous mode"))
  else if s.tpcXid.isNone then
    (s, some (.programmingError "prepare must be called inside a two-phase transaction"))
  else
    match s.execTpcCommand oracle with
    | (s', none) => ({ s' with status := .prepared }, none)
    | (s', some e) => (s', some e)

/-- `Connection._finish_tpc(command, fallback, xid)` (lines 599-625).
With an explicit xid (recovery of a foreign transaction) the
connection must be ready and the prepared command is issued directly,
leaving `status` and `_tpc_xid` untouched.  Without one, the stored
xid must exist; an unprepared transaction falls back to the plain
commit/rollback, a prepared one issues the prepared command; then the
connection returns to ready with the xid cleared.  `fallback` is
`true` for `_commit`, `false` for `_rollback`. -/
def ConnSt.finishTpc (s : ConnSt) (fallbackCommit : Bool) (xid : Option XidTok)
    (oracle : List Bool) : ConnStep :=
  match xid with
  | some _ =>
    if s.status ≠ .ready then
      (s, some (.programmingError
        "tpc_commit/tpc_rollback with a xid must be called outside a transaction"))
    else s.execTpcCommand oracle
  | none =>
    if s.tpcXid.isNone then
      (s, some (.programmingError
        "tpc_commit/tpc_rollback with no parameter must be called in a two-phase transaction"))
    else
      let inner : ConnStep :=
        if s.status = .begin then
          if fallbackCommit then s.commitInner oracle else s.rollbackInner oracle
        else if s.status = .prepared then
          s.execTpcCommand oracle
        else
          (s, some (.interfaceError "unexpected state in tpc_commit/tpc_rollback"))
      match inner with
      | (s', none) => ({ s' with status := .ready, tpcXid := none }, none)
      | (s', some e) => (s', some e)

/-- `Connection.tpc_commit(xid=None)` (lines 383-386). -/
def ConnSt.tpcCommit (s : ConnSt) (xid : Option XidTok) (oracle : List Bool) : ConnStep :=
  if s.closed then (s, some (.interfaceError "connection already closed"))
  else if s.asyncFlag then
    (s, some (.programmingError "cannot be used in asynchronous mode"))
  else s.finishTpc true xid oracle

/-- `Connection.tpc_rollback(xid=None)` (lines 388-391). -/
def ConnSt.tpcRollback (s : ConnSt) (xid : Option XidTok) (oracle : List Bool) : ConnStep :=
  if s.closed then (s, some (.interfaceError "connection already closed"))
  else if s.asyncFlag then
    (s, some (.programmingError "cannot be used in asynchronous mode"))
  else s.finishTpc false xid oracle

/-- The `isolation_level` argument of `set_session`: an integer, a
string, or a value of another type (rejected with `TypeError`). -/
inductive IsoArg where
  | int (n : Int)
  | str (s : String)
  | other
  deriving Repr

/-- The isolation-level names accepted by `set_session` (keys of
`_isolevels`, lines 14-22; the post-loop dictionary also holds the
integer values and `'default'` as keys, but a lowered string argument
can only hit the string keys). -/
def isoLevelNames : List String :=
  ["", "read uncommitted", "read committed", "repeatable read",
   "serializable", "default"]

/-- `str.lower()`. -/
def pyLower (s : String) : String := String.mk (s.toList.map pyLowerChar)

/-- `Connection.set_session(isolation_level, readonly, deferrable,
autocommit)` (lines 232-258): `check_closed`, `check_notrans`;
validate and apply the isolation level (one `SET` command), apply the
readonly and deferrable flags (one `SET` command each), then set the
autocommit flag.  A guc `SET` failure raises, leaving the previously
applied settings in place; the autocommit flag is assigned last. -/
def ConnSt.setSession (s : ConnSt) (isolationLevel : Option IsoArg)
    (readonly : Option Bool) (deferrable : Option Bool)
    (autocommit : Option Bool) (oracle : List Bool) : ConnStep :=
  if s.closed then (s, some (.interfaceError "connection already closed"))
  else if s.status ≠ .ready then
    (s, some (.programmingError "not valid in transaction"))
  else
    -- isolation level validation and SET
    let isoRes : Option PyErr × List Bool :=
      match isolationLevel with
      | none => (none, oracle)
      | some (.int n) =>
        if n < 1 ∨ n > 4 then
          (some (.valueError "isolation level must be between 1 and 4"), oracle)
        else
          let (ok, rest) := execCommand oracle
          if ok then (none, rest)
          else (some (.operationalError "SET failed"), rest)
      | some (.str name) =>
        if name = "" ∨ ¬ isoLevelNames.contains (pyLower name) then
          (some (.valueError "bad value for isolation level"), oracle)
        else
          let (ok, rest) := execCommand oracle
          if ok then (none, rest)
          else (some (.operationalError "SET failed"), rest)
      | some .other => (some (.typeError "bad isolation level"), oracle)
    match isoRes with
    | (some e, _) => (s, some e)
    | (none, oracle1) =>
      let roRes : Option PyErr × List Bool :=
        match readonly with
        | none => (none, oracle1)
        | some _ =>
          let (ok, rest) := execCommand oracle1
          if ok then (none, rest)
          else (some (.operationalError "SET failed"), rest)
      match roRes with
      | (some e, _) => (s, some e)
      | (none, oracle2) =>
        let dfRes : Option PyErr × List Bool :=
          match deferrable with
          | none => (none, oracle2)
          | some _ =>
            let (ok, rest) := execCommand oracle2
            if ok then (none, rest)
            else (some (.operationalError "SET failed"), rest)
        match dfRes with
        | (some e, _) => (s, some e)
        | (none, _) =>
          match autocommit with
          | none => (s, none)
          | some b => ({ s with autocommit := b }, none)

/-- One invocable operation of the modelled slice of the Connection
interface. -/
inductive ConnOp where
  | commit
  | rollback
  | reset
  | tpcBegin (xid : XidTok)
  | tpcPrepare
  | tpcCommit (xid : Option XidTok)
  | tpcRollback (xid : Option XidTok)
  | setSession (isolationLevel : Option IsoArg) (readonly : Option Bool)
      (deferrable : Option Bool) (autocommit : Option Bool)

/-- Apply one operation under a server oracle. -/
def ConnSt.apply (s : ConnSt) (op : ConnOp) (oracle : List Bool) : ConnStep :=
  match op with
  | .commit => s.commit oracle
  | .rollback => s.rollback oracle
  | .reset => s.reset oracle
  | .tpcBegin xid => s.tpcBegin xid oracle
  | .tpcPrepare => s.tpcPrepare oracle
  | .tpcCommit xid => s.tpcCommit xid oracle
  | .tpcRollback xid => s.tpcRollback xid oracle
  | .setSession iso ro df ac => s.setSession iso ro df ac oracle

/-- The connection states reachable from a fresh synchronous
connection by any sequence of the modelled operations, under any
server behaviour; the state left behind by an operation that raised is
reachable as well. -/
inductive Reachable : ConnSt → Prop where
  | init : Reachable ConnSt.init
  | step {s : ConnSt} (op : ConnOp) (oracle : List Bool) :
      Reachable s → Reachable (s.apply op oracle).1

/-! ## Cursor fetch machinery

From `psycopg2ct/_impl/cursor.py`: the `check_closed` /
`check_no_tuples` decorators (lines 16-36) and `fetchone`,
`fetchmany`, `fetchall` (lines 276-365).  The native result handle is
modelled by the list of its rows (each row as produced by
`_build_row`, row type abstract); `_rowcount` and `_rownumber` are
python ints.  For a named cursor a fetch first issues `FETCH FORWARD
... FROM "<name>"` through `_pq_execute`; the rows of the server
response are the `resp` parameter, and `_pq_fetch` /
`_pq_fetch_tuples` then reset `_rownumber` to 0, `_rowcount` to the
response row count and `_no_tuples` to `False`. -/

/-- The cursor state touched by the fetch operations.  `closed` is
`self._closed or self._conn.closed`. -/
structure CurSt (α : Type) where
  closed : Bool
  name : Option String
  noTuples : Bool
  rows : List α
  rowcount : Int
  rownumber : Int
  arraysize : Int
  deriving Repr

/-- `_pq_execute('FETCH ...')` followed by `_pq_fetch` on a
`PGRES_TUPLES_OK` result holding `resp` (lines 675-693, 707-746): the
previous result is cleared and replaced. -/
def CurSt.pqFetchTuples {α : Type} (s : CurSt α) (resp : List α) : CurSt α :=
  { s with rows := resp, rowcount := (resp.length : Int), rownumber := 0,
           noTuples := false }

/-- `_build_row(row_num)` of the materialized result, as a lookup in
the modelled row list. -/
def buildRowRange {α : Type} (rows : List α) (start cnt : Nat) : List (Option α) :=
  (List.range cnt).map fun k => rows.get? (start + k)

/-- `Cursor.fetchone` (lines 276-296): `check_closed`,
`check_no_tuples` (which only raises for an unnamed cursor), the
`FETCH FORWARD 1` round-trip for a named cursor, then one row starting
at `_rownumber` or `None` when exhausted. -/
def CurSt.fetchone {α : Type} (s : CurSt α) (resp : List α) :
    Except PyErr (Option α × CurSt α) :=
  if s.closed then .error (.interfaceError "connection already closed")
  else if s.noTuples ∧ s.name = none then
    .error (.programmingError "no results to fetch")
  else
    let s := match s.name with
      | some _ => s.pqFetchTuples resp
      | none => s
    if s.rownumber ≥ s.rowcount then .ok (none, s)
    else
      .ok (s.rows.get? s.rownumber.toNat, { s with rownumber := s.rownumber + 1 })

/-- `Cursor.fetchmany(size=None)` (lines 298-339): default the size to
`arraysize`, `FETCH FORWARD <size>` for a named cursor, clamp an
oversized or negative size to the remaining row count, return an empty
list when nothing remains, else build and return the next `size` rows,
advancing `_rownumber`. -/
def CurSt.fetchmany {α : Type} (s : CurSt α) (sizeArg : Option Int) (resp : List α) :
    Except PyErr (List (Option α) × CurSt α) :=
  if s.closed then .error (.interfaceError "connection already closed")
  else if s.noTuples ∧ s.name = none then
    .error (.programmingError "no results to fetch")
  else
    let size := sizeArg.getD s.arraysize
    let s := match s.name with
      | some _ => s.pqFetchTuples resp
      | none => s
    let size := if size > s.rowcount - s.rownumber ∨ size < 0 then
        s.rowcount - s.rownumber
      else size
    if size ≤ 0 then .ok ([], s)
    else
      .ok (buildRowRange s.rows s.rownumber.toNat size.toNat,
           { s with rownumber := s.rownumber + size })

/-- `Cursor.fetchall` (lines 341-365): `FETCH FORWARD ALL` for a named
cursor, then all remaining rows. -/
def CurSt.fetchall {α : Type} (s : CurSt α) (resp : List α) :
    Except PyErr (List (Option α) × CurSt α) :=
  if s.closed then .error (.interfaceError "connection already closed")
  else if s.noTuples ∧ s.name = none then
    .error (.programmingError "no results to fetch")
  else
    let s := match s.name with
      | some _ => s.pqFetchTuples resp
      | none => s
    let size := s.rowcount - s.rownumber
    if size ≤ 0 then .ok ([], s)
    else
      .ok (buildRowRange s.rows s.rownumber.toNat size.toNat,
           { s with rownumber := s.rownumber + size })

/-- A sequence of `fetchmany(n)` calls on an unnamed cursor (the
`resp` parameter is irrelevant there and instantiated empty),
collecting the returned batches; stops at the first error. -/
def runFetchmany {α : Type} (s : CurSt α) :
    List Int → Except PyErr (List (List (Option α)) × CurSt α)
  | [] => .ok ([], s)
  | n :: ns =>
    match s.fetchmany (some n) [] with
    | .error e => .error e
    | .ok (batch, s') =>
      match runFetchmany s' ns with
      | .error e => .error e
      | .ok (batches, s'') => .ok (batch :: batches, s'')

/-! ## Distributed transaction identifiers: `Xid`

From `psycopg2ct/_impl/xid.py`.  `as_tid` renders
`"%d_%s_%s" % (int(format_id), gtrid.encode('base64')[:-1],
bqual.encode('base64')[:-1])`; `from_string` matches
`^(\d+)_([^_]*)_([^_]*)$`, base64-decodes the two groups and rebuilds
the `Xid` through the validating constructor, falling back on any
failure to an identifier with no format id whose `gtrid` is the whole
input.  The python 2 codec `str.encode('base64')`
(`base64.encodestring`) emits 76-character lines — binary chunks of 57
bytes — each terminated by a newline; `str.decode('base64')`
(`binascii.a2b_base64`) skips characters outside the base64 alphabet
and the pad, skips a misplaced pad (quad position 0 or 1, or position
2 with the next kept character not a pad), treats a pad sequence
closing a quad (position 3, or position 2 followed by a second pad) as
end of input — discarding any trailing data — and raises
`binascii.Error` when the input ends with leftover bits.  Bytes are
modelled as `Nat` character codes. -/

/-- The base64 alphabet. -/
def b64alphabet : List Char :=
  "ABCDEFGHIJKLMNOPQRSTUVWXYZabcdefghijklmnopqrstuvwxyz0123456789+/".toList

/-- The character for a 6-bit group. -/
def b64char (n : Nat) : Char := b64alphabet.getD n 'A'

/-- The 6-bit group of an alphabet character, `none` outside the
alphabet. -/
def b64index (c : Char) : Option Nat := listFind c b64alphabet

/-- Raw base64 encoding of a byte sequence (`binascii.b2a_base64`
without the trailing newline): 3-byte groups to 4 characters, with
`=` padding for a 1- or 2-byte tail. -/
def b64encodeRaw : List Nat → List Char
  | [] => []
  | [a] => [b64char (a / 4), b64char (a % 4 * 16), '=', '=']
  | [a, b] =>
    [b64char (a / 4), b64char (a % 4 * 16 + b / 16), b64char (b % 16 * 4), '=']
  | a :: b :: c :: rest =>
    b64char (a / 4) :: b64char (a % 4 * 16 + b / 16) ::
      b64char (b % 16 * 4 + c / 64) :: b64char (c % 64) :: b64encodeRaw rest

/-- The decoding loop of `binascii.a2b_base64`, run on the characters
the loop keeps (base64 alphabet and pad; every other character is
skipped by the loop before reaching this state machine, so the pad
lookahead `binascii_find_valid` is the next kept character).
`quad_pos` is the position in the current 4-character quad, `leftchar`
/ `leftbits` the bit buffer: each alphabet character shifts 6 bits in,
and a full byte is emitted whenever 8 or more bits are buffered
(`(leftchar >> leftbits) & 0xff`, the remainder masked back).  A pad
at quad position 3, or at position 2 followed by another pad, means
end of input and any trailing data is discarded; any other pad is
skipped.  An input exhausted with leftover bits raises
`binascii.Error` (`Incorrect padding`), modelled as `none`. -/
def a2bLoop (l : List Char) (quad_pos leftchar leftbits : Nat) :
    Option (List Nat) :=
  match l with
  | [] => if leftbits = 0 then some [] else none
  | c :: r =>
    if c = '=' then
      if quad_pos = 3 ∨ (quad_pos = 2 ∧ r.head? = some '=') then some []
      else a2bLoop r quad_pos leftchar leftbits
    else
      match b64index c with
      | none => a2bLoop r quad_pos leftchar leftbits
      | some v =>
        if 8 ≤ leftbits + 6 then
          match a2bLoop r ((quad_pos + 1) % 4)
              ((leftchar * 64 + v) % 2 ^ (leftbits + 6 - 8))
              (leftbits + 6 - 8) with
          | some bs =>
            some ((leftchar * 64 + v) / 2 ^ (leftbits + 6 - 8) % 256 :: bs)
          | none => none
        else a2bLoop r ((quad_pos + 1) % 4) (leftchar * 64 + v) (leftbits + 6)

/-- `base64.encodestring`: encode 57-byte chunks, each as one line
terminated by a newline; the empty string encodes to the empty
string. -/
def b64encodestring (bs : List Nat) : List Char :=
  if bs.isEmpty then []
  else b64encodeRaw (bs.take 57) ++ '\n' :: b64encodestring (bs.drop 57)
termination_by bs.length
decreasing_by
  cases bs with
  | nil => simp_all
  | cons b rest => simp [List.length_drop]; omega

/-- A character surviving `binascii.a2b_base64`: alphabet or padding. -/
def b64keep (c : Char) : Bool := (b64index c).isSome ∨ c = '='

/-- `str.decode('base64')` (`base64.decodestring`, that is
`binascii.a2b_base64` on the whole string): run the decoding loop on
the kept characters with an empty quad and bit buffer. -/
def b64decodestring (l : List Char) : Option (List Nat) :=
  a2bLoop (l.filter b64keep) 0 0 0

/-- The decimal digits of a natural number, most significant first
(the rendering of python `"%d" % n` for the non-negative format ids of
`as_tid`). -/
def natDigitsAux (n : Nat) : List Char :=
  if n = 0 then []
  else natDigitsAux (n / 10) ++ [Char.ofNat (48 + n % 10)]
termination_by n
decreasing_by omega

def natDigits (n : Nat) : List Char :=
  if n = 0 then ['0'] else natDigitsAux n

/-- `int(digits)` for a non-empty digit string. -/
def natOfDigits (ds : List Char) : Nat :=
  ds.foldl (fun acc c => acc * 10 + (c.toNat - 48)) 0

/-- The bytes of a python `str` (its character codes). -/
def bytesOfString (s : String) : List Nat := s.toList.map Char.toNat

/-- A python `str` from bytes. -/
def stringOfBytes (bs : List Nat) : String := String.mk (bs.map Char.ofNat)

/-- An `Xid` as stored on the object: `format_id` and `bqual` are
`None` on the fallback produced by `from_string` for unparsable
input. -/
structure XidRec where
  format_id : Option Nat
  gtrid : String
  bqual : Option String
  deriving Repr, DecidableEq

/-- The validation performed by `Xid.__init__` (lines 4-25) on one of
the two string fields: at most 64 characters, all printable
(`0x20 <= ord(char) <= 0x7F`). -/
def validXidField (s : String) : Bool :=
  s.toList.length ≤ 64 && s.toList.all fun c => 0x20 ≤ c.toNat && c.toNat ≤ 0x7F

/-- `Xid(format_id, gtrid, bqual)` (lines 4-25): validate the format
id range and both string fields, raising `ValueError` otherwise. -/
def XidRec.mk? (format_id : Nat) (gtrid bqual : String) : Except PyErr XidRec :=
  if ¬ format_id ≤ 0x7FFFFFFF then
    .error (.valueError "format_id must be a non-negative 32-bit integer")
  else if ¬ validXidField gtrid then
    .error (.valueError "gtrid must be a printable string of at most 64 characters")
  else if ¬ validXidField bqual then
    .error (.valueError "bqual must be a printable string of at most 64 characters")
  else .ok ⟨some format_id, gtrid, some bqual⟩

/-- `Xid.as_tid` (lines 27-33): with a format id,
`"%d_%s_%s"` of the id and the two base64-encoded fields, each
stripped of its last character (the final newline of
`encodestring`); without one, the bare `gtrid`. -/
def XidRec.as_tid (x : XidRec) : String :=
  match x.format_id with
  | some fid =>
    String.mk (natDigits fid ++ '_' ::
      ((b64encodestring (bytesOfString x.gtrid)).dropLast ++ '_' ::
        (b64encodestring (bytesOfString (x.bqual.getD ""))).dropLast))
  | none => x.gtrid

/-- The match of `^(\d+)_([^_]*)_([^_]*)$` (line 39): maximal leading
digits, an underscore, then a remainder containing exactly one further
underscore splitting the two groups. -/
def parseTid (s : List Char) : Option (Nat × List Char × List Char) :=
  let digits := s.takeWhile Char.isDigit
  if digits.isEmpty then none
  else
    match s.drop digits.length with
    | c :: r2 =>
      if c = '_' then
        match listFind '_' r2 with
        | none => none
        | some j =>
          let g3 := r2.drop (j + 1)
          if g3.contains '_' then none
          else some (natOfDigits digits, r2.take j, g3)
      else none
    | [] => none

/-- The `try` block of `Xid.from_string` (lines 40-48): regex match,
base64 decoding of both groups, validating construction; `none` when
any step raises. -/
def parseXidToken (s : String) : Option XidRec :=
  match parseTid s.toList with
  | none => none
  | some (fid, g2, g3) =>
    match b64decodestring g2, b64decodestring g3 with
    | some bs2, some bs3 =>
      match XidRec.mk? fid (stringOfBytes bs2) (stringOfBytes bs3) with
      | .ok x => some x
      | .error _ => none
    | _, _ => none

/-- `Xid.from_string` (lines 38-56): the parsed identifier, or on any
failure the fallback with no format id, the whole input as `gtrid` and
no `bqual`. -/
def XidRec.from_string (s : String) : XidRec :=
  match parseXidToken s with
  | some x => x
  | none => { format_id := none, gtrid := s, bqual := none }

/-! # Theorems -/

/-- C1: For every query parameter whose value is `None`, the Literal
Encoder renders it as the SQL literal `NULL`: adapting `None` succeeds
— it resolves to `NoneAdapter`, not the "cannot adapt"
`ProgrammingError` — and the quoted text produced by `_getquoted` is
exactly `NULL`, for every connection. -/
theorem adapt_none_renders_NULL (conn : ConnM) :
    adapt PyValue.pyNone = Except.ok Adapter.NoneAdapter ∧
    _getquoted PyValue.pyNone conn = Except.ok "NULL" :=
  ⟨rfl, rfl⟩

/-- C3 (divergence witness): the array decoder treats the unquoted
token `NULL` — in any letter case — as a true null element, but it
also decodes the quoted element `"NULL"` to null: the quote characters
only toggle the scanner's quote parity and are not buffered, so the
buffer of `"NULL"` is the same 4-character `NULL` that triggers the
null test.  The claim that `"NULL"` decodes to the literal 4-character
string therefore fails on the code. -/
theorem parse_array_null_handling :
    parse_array stringCaster "{NULL}".toList = .ok [.atom none] ∧
    parse_array stringCaster "{nUlL}".toList = .ok [.atom none] ∧
    parse_array stringCaster ['{', '"', 'N', 'U', 'L', 'L', '"', '}'] =
      .ok [.atom none] := by
  refine ⟨?_, ?_, ?_⟩ <;>
    simp [parse_array, parseArrayLoop, elemScan, stringCaster, pyLowerChar]

/-- C4: during row construction a field is `None` exactly when the
native result flags it null — given the libpq guarantee that
`PQgetvalue` returns the empty string on a null field — and a
non-null field, empty or not, is decoded by the selected caster from
its raw value and length. -/
theorem build_row_null_iff {α : Type} (nfields : Nat)
    (getvalue : Nat → List Char) (getisnull : Nat → Bool)
    (getlength : Nat → Nat) (casts : Nat → List Char → Nat → α)
    (hlibpq : ∀ j, getisnull j = true → getvalue j = [])
    (i : Nat) (hi : i < nfields) :
    ((_build_row nfields getvalue getisnull getlength casts).get? i =
        some none ↔ getisnull i = true) ∧
    (getisnull i = false →
      (_build_row nfields getvalue getisnull getlength casts).get? i =
        some (some (casts i (getvalue i) (getlength i)))) := by
  have hentry : (_build_row nfields getvalue getisnull getlength casts).get? i =
      some (if getvalue i = [] ∧ getisnull i then none
            else some (casts i (getvalue i) (getlength i))) := by
    unfold _build_row
    rw [List.get?_map, List.get?_range hi]
    rfl
  constructor
  · rw [hentry]
    constructor
    · intro hnone
      by_cases hn : getisnull i = true
      · exact hn
      · simp [hn] at hnone
    · intro hn
      simp [hn, hlibpq i hn]
  · intro hn
    rw [hentry]
    simp [hn]

/-- C4 witness: a two-column row whose first field is flagged null and
whose second field is an empty non-null string; the first cell is
`None`, the second is the decoded empty string. -/
theorem build_row_null_iff_witness :
    (_build_row 2 (fun _ => []) (fun j => j = 0) (fun _ => 0)
        (fun _ v _ => String.mk v)).get? 0 = some none ∧
    (_build_row 2 (fun _ => []) (fun j => j = 0) (fun _ => 0)
        (fun _ v _ => String.mk v)).get? 1 = some (some "") := by
  constructor
  · exact ((build_row_null_iff 2 (fun _ => []) (fun j => j = 0) (fun _ => 0)
      (fun _ v _ => String.mk v) (fun _ _ => rfl) 0 (by omega)).1).mpr (by decide)
  · exact (build_row_null_iff 2 (fun _ => []) (fun j => j = 0) (fun _ => 0)
      (fun _ v _ => String.mk v) (fun _ _ => rfl) 1 (by omega)).2 (by decide)

/-- Helper: in range, the row loop of `fetchmany`/`fetchall` produces
the corresponding slice of the materialized rows. -/
theorem buildRowRange_eq_slice {α : Type} :
    ∀ (cnt : Nat) (R : List α) (start : Nat), start + cnt ≤ R.length →
      buildRowRange R start cnt = ((R.drop start).take cnt).map some := by
  intro cnt
  induction cnt with
  | zero => intro R start _; simp [buildRowRange]
  | succ n ih =>
    intro R start h
    have hstart : start < R.length := by omega
    unfold buildRowRange
    rw [List.range_succ_eq_map]
    simp only [List.map_cons, List.map_map, Nat.add_zero]
    have hmaps : (List.range n).map ((fun k => R.get? (start + k)) ∘ Nat.succ) =
        buildRowRange R (start + 1) n := by
      unfold buildRowRange
      apply List.map_congr_left
      intro k _
      simp [Function.comp]
      congr 1
      omega
    rw [hmaps, ih R (start + 1) (by omega), List.drop_eq_getElem_cons hstart,
        List.take_succ_cons, List.map_cons, List.get?_eq_getElem?,
        List.getElem?_eq_getElem hstart]

/-- C10: on an unnamed cursor with a materialized result,
`fetchmany(n)` with `n` negative or larger than the remaining row
count returns exactly the remaining rows (so `fetchmany(-1)` behaves
like `fetchall`), never raises, and leaves the row pointer at the end
of the result. -/
theorem fetchmany_oversize_or_negative {α : Type} (s : CurSt α) (n : Int)
    (hclosed : s.closed = false) (hname : s.name = none)
    (hnt : s.noTuples = false) (hrc : s.rowcount = s.rows.length)
    (hlo : 0 ≤ s.rownumber) (hhi : s.rownumber ≤ s.rowcount)
    (hn : n < 0 ∨ n > s.rowcount - s.rownumber) :
    s.fetchmany (some n) [] =
      .ok ((s.rows.drop s.rownumber.toNat).map some,
           { s with rownumber := s.rowcount }) := by
  obtain ⟨cl, nm, nt, rows, rc, rn, asz⟩ := s
  simp only at hclosed hname hnt hrc hlo hhi hn
  subst hclosed hname hnt hrc
  unfold CurSt.fetchmany
  simp only [Bool.false_eq_true, if_false, false_and, Option.getD_some]
  have hclamp : (if n > (rows.length : Int) - rn ∨ n < 0 then
      (rows.length : Int) - rn else n) = (rows.length : Int) - rn := by
    rcases hn with h | h
    · rw [if_pos (Or.inr h)]
    · rw [if_pos (Or.inl h)]
  rw [hclamp]
  by_cases hempty : (rows.length : Int) - rn ≤ 0
  · rw [if_pos hempty]
    have hdrop : rows.drop rn.toNat = [] := by
      apply List.drop_eq_nil_of_le
      omega
    rw [hdrop]
    simp only [List.map_nil]
    have heq : rn = (rows.length : Int) := by omega
    rw [heq]
  · rw [if_neg hempty]
    have hsz : rn + ((rows.length : Int) - rn) = (rows.length : Int) := by omega
    rw [hsz]
    congr 2
    rw [buildRowRange_eq_slice _ _ _ (by omega)]
    congr 1
    apply List.take_of_length_le
    rw [List.length_drop]
    omega

/-- C10 witness: a 3-row cursor at row pointer 1; `fetchmany(-1)`
returns the remaining two rows and never raises. -/
theorem fetchmany_oversize_or_negative_witness :
    (CurSt.fetchmany
      ⟨false, none, false, ["a", "b", "c"], 3, 1, 1⟩ (some (-1)) []) =
      .ok ([some "b", some "c"],
           ⟨false, none, false, ["a", "b", "c"], 3, 3, 1⟩) := by
  have h := fetchmany_oversize_or_negative
    (⟨false, none, false, ["a", "b", "c"], 3, 1, 1⟩ : CurSt String) (-1)
    rfl rfl rfl (by decide) (by decide) (by decide) (Or.inl (by decide))
  rw [h]
  rfl

/-- Helper: the outcome of a sequence of positive-size `fetchmany`
calls on an unnamed cursor holding `R`, with enough total size to
exhaust the result: the batches joined give exactly the rows from the
current row pointer on, and the pointer ends at the row count. -/
theorem runFetchmany_spec {α : Type} :
    ∀ (ns : List Int) (s : CurSt α),
      s.closed = false → s.name = none → s.noTuples = false →
      s.rowcount = (s.rows.length : Int) →
      0 ≤ s.rownumber → s.rownumber ≤ (s.rows.length : Int) →
      (∀ n ∈ ns, 0 < n) →
      (s.rows.length : Int) ≤ s.rownumber + ns.sum →
      ∃ batches fin, runFetchmany s ns = .ok (batches, fin) ∧
        batches.flatten = (s.rows.drop s.rownumber.toNat).map some ∧
        fin.rownumber = (s.rows.length : Int) := by
  intro ns
  induction ns with
  | nil =>
    intro s hcl hnm hnt hrc hlo hhi _ hsum
    refine ⟨[], s, rfl, ?_, ?_⟩
    · have : s.rownumber = (s.rows.length : Int) := by
        simp at hsum
        omega
      simp [List.drop_eq_nil_of_le, this]
    · simp at hsum
      omega
  | cons n ns ih =>
    intro s hcl hnm hnt hrc hlo hhi hpos hsum
    obtain ⟨cl, nm, nt, rows, rc, rn, asz⟩ := s
    simp only at hcl hnm hnt hrc hlo hhi hsum
    subst hcl hnm hnt hrc
    have hn : 0 < n := hpos n (by simp)
    have hns : ∀ m ∈ ns, 0 < m := fun m hm => hpos m (by simp [hm])
    have hsum' : (rows.length : Int) ≤ rn + n + ns.sum := by
      simp [List.sum_cons] at hsum
      omega
    have hsnn : (0 : Int) ≤ ns.sum :=
      List.sum_nonneg fun m hm => le_of_lt (hns m hm)
    by_cases hclamp : n > (rows.length : Int) - rn ∨ n < 0
    · -- the size is clamped to the remaining row count
      by_cases hempty : (rows.length : Int) - rn ≤ 0
      · have hfetch : CurSt.fetchmany
            (⟨false, none, false, rows, (rows.length : Int), rn, asz⟩ : CurSt α)
            (some n) [] =
            .ok ([], ⟨false, none, false, rows, (rows.length : Int), rn, asz⟩) := by
          unfold CurSt.fetchmany
          simp only [Bool.false_eq_true, if_false, false_and, Option.getD_some]
          rw [if_pos hclamp, if_pos hempty]
        obtain ⟨batches, fin, hrun, hjoin, hfin⟩ :=
          ih ⟨false, none, false, rows, (rows.length : Int), rn, asz⟩
            rfl rfl rfl rfl hlo hhi hns (by dsimp only; omega)
        refine ⟨[] :: batches, fin, ?_, ?_, hfin⟩
        · simp only [runFetchmany, hfetch, hrun]
        · simpa using hjoin
      · have hsz : rn + ((rows.length : Int) - rn) = (rows.length : Int) := by omega
        have hfetch : CurSt.fetchmany
            (⟨false, none, false, rows, (rows.length : Int), rn, asz⟩ : CurSt α)
            (some n) [] =
            .ok (buildRowRange rows rn.toNat ((rows.length : Int) - rn).toNat,
                 ⟨false, none, false, rows, (rows.length : Int),
                  (rows.length : Int), asz⟩) := by
          unfold CurSt.fetchmany
          simp only [Bool.false_eq_true, if_false, false_and, Option.getD_some]
          rw [if_pos hclamp, if_neg hempty, hsz]
        obtain ⟨batches, fin, hrun, hjoin, hfin⟩ :=
          ih ⟨false, none, false, rows, (rows.length : Int), (rows.length : Int), asz⟩
            rfl rfl rfl rfl (by dsimp only; omega) (by dsimp only; omega) hns
            (by dsimp only; omega)
        refine ⟨buildRowRange rows rn.toNat ((rows.length : Int) - rn).toNat :: batches,
          fin, ?_, ?_, hfin⟩
        · simp only [runFetchmany, hfetch, hrun]
        · simp only [List.flatten_cons]
          rw [hjoin]
          dsimp only
          rw [buildRowRange_eq_slice _ _ _ (by omega)]
          have hdrop2 : rows.drop (Int.toNat (rows.length : Int)) = [] :=
            List.drop_eq_nil_of_le (by omega)
          rw [hdrop2]
          simp only [List.map_nil, List.append_nil]
          congr 1
          apply List.take_of_length_le
          rw [List.length_drop]
          omega
    · -- the requested size fits in the remaining row count
      push_neg at hclamp
      have hfetch : CurSt.fetchmany
          (⟨false, none, false, rows, (rows.length : Int), rn, asz⟩ : CurSt α)
          (some n) [] =
          .ok (buildRowRange rows rn.toNat n.toNat,
               ⟨false, none, false, rows, (rows.length : Int), rn + n, asz⟩) := by
        unfold CurSt.fetchmany
        simp only [Bool.false_eq_true, if_false, false_and, Option.getD_some]
        have hc1 : (if n > (rows.length : Int) - rn ∨ n < 0 then
            (rows.length : Int) - rn else n) = n := if_neg (by push_neg; exact hclamp)
        rw [hc1, if_neg (show ¬ (n ≤ 0) by omega)]
      obtain ⟨batches, fin, hrun, hjoin, hfin⟩ :=
        ih ⟨false, none, false, rows, (rows.length : Int), rn + n, asz⟩
          rfl rfl rfl rfl (by dsimp only; omega) (by dsimp only; omega) hns
          (by dsimp only; omega)
      refine ⟨buildRowRange rows rn.toNat n.toNat :: batches, fin, ?_, ?_, hfin⟩
      · simp only [runFetchmany, hfetch, hrun]
      · simp only [List.flatten_cons]
        rw [hjoin]
        dsimp only
        rw [buildRowRange_eq_slice _ _ _ (by omega)]
        have hdd : rows.drop ((rn + n).toNat) = (rows.drop rn.toNat).drop n.toNat := by
          rw [List.drop_drop]
          congr 1
          omega
        rw [hdd, ← List.map_append, List.take_append_drop]

/-- C8: on an unnamed cursor with a fully materialized result of `r`
rows and the row pointer at the start, any sequence of `fetchmany(n)`
calls with positive (possibly varying) sizes whose total reaches `r`
returns consecutive disjoint batches that, concatenated, yield every
row exactly once, in order, with no gaps and no duplicates. -/
theorem fetchmany_partitions_rows {α : Type} (R : List α) (ns : List Int)
    (s : CurSt α)
    (hcl : s.closed = false) (hnm : s.name = none) (hnt : s.noTuples = false)
    (hrows : s.rows = R) (hrc : s.rowcount = (R.length : Int))
    (hrn : s.rownumber = 0)
    (hpos : ∀ n ∈ ns, 0 < n) (hsum : (R.length : Int) ≤ ns.sum) :
    ∃ batches fin, runFetchmany s ns = .ok (batches, fin) ∧
      batches.flatten = R.map some := by
  obtain ⟨batches, fin, hrun, hjoin, _⟩ :=
    runFetchmany_spec ns s hcl hnm hnt (by rw [hrc, hrows]) (by omega)
      (by rw [hrows]; omega) hpos (by rw [hrows]; omega)
  refine ⟨batches, fin, hrun, ?_⟩
  rw [hjoin, hrn, hrows]
  simp

/-- C8 witness: six rows fetched with sizes 4 and 4; the two batches
join to the full row list. -/
theorem fetchmany_partitions_rows_witness :
    ∃ batches fin,
      runFetchmany (⟨false, none, false, [0, 1, 2, 3, 4, 5], 6, 0, 1⟩ : CurSt Nat)
        [4, 4] = .ok (batches, fin) ∧
      batches.flatten = [0, 1, 2, 3, 4, 5].map some := by
  exact fetchmany_partitions_rows [0, 1, 2, 3, 4, 5] [4, 4] _
    rfl rfl rfl rfl rfl rfl (by decide) (by simp)

/-- C7: on a cursor with no pending tuple result (`_no_tuples` set),
each of the three fetch methods — `fetchone`, `fetchmany`, `fetchall`
— raises `ProgrammingError` when the cursor is unnamed; on a named
cursor the same calls bypass the guard, issue a `FETCH` and return the
rows of the server response: `fetchone` its first row (`None` when it
is empty), `fetchmany` its first `size` rows after the clamp (`size`
defaulting to `arraysize`), `fetchall` all of them. -/
theorem fetch_guard_unnamed_named {α : Type} (s : CurSt α) (resp : List α)
    (sz : Option Int) (hclosed : s.closed = false) :
    (s.noTuples = true → s.name = none →
      s.fetchone resp = .error (.programmingError "no results to fetch") ∧
      s.fetchmany sz resp = .error (.programmingError "no results to fetch") ∧
      s.fetchall resp = .error (.programmingError "no results to fetch")) ∧
    (∀ nm, s.name = some nm →
      (∃ s1, s.fetchone resp = .ok (resp.head?, s1)) ∧
      (∃ s2, s.fetchmany sz resp = .ok ((resp.take
        ((if sz.getD s.arraysize > (resp.length : Int) ∨
            sz.getD s.arraysize < 0 then (resp.length : Int)
          else sz.getD s.arraysize).toNat)).map some, s2)) ∧
      (∃ s3, s.fetchall resp = .ok (resp.map some, s3))) := by
  constructor
  · intro hnt hnm
    refine ⟨?_, ?_, ?_⟩
    · unfold CurSt.fetchone
      simp [hclosed, hnt, hnm]
    · unfold CurSt.fetchmany
      simp [hclosed, hnt, hnm]
    · unfold CurSt.fetchall
      simp [hclosed, hnt, hnm]
  · intro nm hnm
    refine ⟨?_, ?_, ?_⟩
    · unfold CurSt.fetchone CurSt.pqFetchTuples
      cases resp with
      | nil =>
        refine ⟨{ s with rows := [], rowcount := 0, rownumber := 0,
                         noTuples := false }, ?_⟩
        simp [hclosed, hnm]
      | cons r rest =>
        refine ⟨{ s with rows := r :: rest,
                         rowcount := ((r :: rest).length : Int),
                         rownumber := 0 + 1, noTuples := false }, ?_⟩
        simp [hclosed, hnm]
    · unfold CurSt.fetchmany CurSt.pqFetchTuples
      rw [if_neg (by simp [hclosed]), if_neg (by simp [hnm]), hnm]
      dsimp only
      rw [sub_zero]
      by_cases hcl : sz.getD s.arraysize > (resp.length : Int) ∨
          sz.getD s.arraysize < 0
      · rw [if_pos hcl]
        by_cases hlen : (resp.length : Int) ≤ 0
        · have hnil : resp = [] := by
            cases resp with
            | nil => rfl
            | cons x xs =>
              exfalso
              simp at hlen
              omega
          subst hnil
          rw [if_pos hlen]
          exact ⟨_, rfl⟩
        · rw [if_neg hlen]
          have hb : buildRowRange resp ((0 : Int)).toNat
              ((resp.length : Int)).toNat =
              (resp.take ((resp.length : Int)).toNat).map some := by
            rw [buildRowRange_eq_slice _ _ _ (by omega),
                show ((0 : Int)).toNat = 0 from rfl, List.drop_zero]
          rw [hb]
          exact ⟨_, rfl⟩
      · rw [if_neg hcl]
        push_neg at hcl
        by_cases hn0 : sz.getD s.arraysize ≤ 0
        · rw [if_pos hn0]
          rw [show sz.getD s.arraysize = 0 from by omega]
          exact ⟨_, rfl⟩
        · rw [if_neg hn0]
          have hb : buildRowRange resp ((0 : Int)).toNat
              (sz.getD s.arraysize).toNat =
              (resp.take (sz.getD s.arraysize).toNat).map some := by
            rw [buildRowRange_eq_slice _ _ _ (by omega),
                show ((0 : Int)).toNat = 0 from rfl, List.drop_zero]
          rw [hb]
          exact ⟨_, rfl⟩
    · unfold CurSt.fetchall CurSt.pqFetchTuples
      rw [if_neg (by simp [hclosed]), if_neg (by simp [hnm]), hnm]
      dsimp only
      rw [sub_zero]
      by_cases hlen : (resp.length : Int) ≤ 0
      · have hnil : resp = [] := by
          cases resp with
          | nil => rfl
          | cons x xs =>
            exfalso
            simp at hlen
            omega
        subst hnil
        rw [if_pos hlen]
        exact ⟨_, rfl⟩
      · rw [if_neg hlen]
        have hb : buildRowRange resp ((0 : Int)).toNat
            ((resp.length : Int)).toNat = resp.map some := by
          rw [buildRowRange_eq_slice _ _ _ (by omega),
              show ((0 : Int)).toNat = 0 from rfl, List.drop_zero,
              show ((resp.length : Int)).toNat = resp.length from by simp,
              List.take_length]
        rw [hb]
        exact ⟨_, rfl⟩

/-- C7 witness: an unnamed cursor with no pending result raises on
`fetchone`; a named one with no pending result fetches and returns the
rows the server sends back — the first for `fetchone`, the first
`arraysize` (2 of 3) for `fetchmany`, all of them for `fetchall`. -/
theorem fetch_guard_unnamed_named_witness :
    CurSt.fetchone (⟨false, none, true, [], -1, 0, 1⟩ : CurSt String) [] =
        .error (.programmingError "no results to fetch") ∧
    (∃ s1, CurSt.fetchone
        (⟨false, some "c", true, [], -1, 0, 1⟩ : CurSt String)
        ["r"] = .ok (some "r", s1)) ∧
    (∃ s2, CurSt.fetchmany
        (⟨false, some "c", true, [], -1, 0, 2⟩ : CurSt String)
        none ["r", "q", "t"] = .ok ([some "r", some "q"], s2)) ∧
    (∃ s3, CurSt.fetchall
        (⟨false, some "c", true, [], -1, 0, 1⟩ : CurSt String)
        ["r", "q"] = .ok ([some "r", some "q"], s3)) := by
  refine ⟨?_, ?_, ?_, ?_⟩
  · exact ((fetch_guard_unnamed_named
      (⟨false, none, true, [], -1, 0, 1⟩ : CurSt String) [] none rfl).1
      rfl rfl).1
  · exact ((fetch_guard_unnamed_named
      (⟨false, some "c", true, [], -1, 0, 1⟩ : CurSt String) ["r"] none rfl).2
      "c" rfl).1
  · obtain ⟨s2, h⟩ := ((fetch_guard_unnamed_named
      (⟨false, some "c", true, [], -1, 0, 2⟩ : CurSt String) ["r", "q", "t"]
      none rfl).2 "c" rfl).2.1
    exact ⟨s2, by rw [h]; norm_num; rfl⟩
  · obtain ⟨s3, h⟩ := ((fetch_guard_unnamed_named
      (⟨false, some "c", true, [], -1, 0, 1⟩ : CurSt String) ["r", "q"]
      none rfl).2 "c" rfl).2.2
    exact ⟨s3, by rw [h]; rfl⟩

/-- Helper: every state reachable from a fresh synchronous connection
keeps `closed` and the async flag off, and satisfies the TPC
invariant: a stored TPC xid forces status `STATUS_BEGIN`
(`STATUS_IN_TRANSACTION`) or `STATUS_PREPARED` and autocommit off. -/
theorem reachable_inv {s : ConnSt} (h : Reachable s) :
    s.closed = false ∧ s.asyncFlag = false ∧
    (s.tpcXid.isSome → (s.status = .begin ∨ s.status = .prepared) ∧
      s.autocommit = false) := by
  induction h with
  | init => simp [ConnSt.init]
  | @step s op oracle hr ih =>
    obtain ⟨hcl, haf, htpc⟩ := ih
    obtain ⟨cl, af, st, ac, tx, mk⟩ := s
    simp only at hcl haf htpc
    subst hcl haf
    cases op with
    | commit =>
      simp only [ConnSt.apply, ConnSt.commit, ConnSt.guardClosedAsyncTpc,
        ConnSt.commitInner, execCommand]
      cases tx <;> cases oracle <;> simp_all <;> split_ifs <;> simp_all
    | rollback =>
      simp only [ConnSt.apply, ConnSt.rollback, ConnSt.guardClosedAsyncTpc,
        ConnSt.rollbackInner, execCommand]
      cases tx <;> cases oracle <;> simp_all <;> split_ifs <;> simp_all
    | reset =>
      simp only [ConnSt.apply, ConnSt.reset, execCommand]
      cases oracle <;> simp_all <;> split_ifs <;> simp_all
    | tpcBegin xid =>
      simp only [ConnSt.apply, ConnSt.tpcBegin, ConnSt.beginTransaction,
        execCommand]
      cases oracle <;> simp_all <;> split_ifs <;> simp_all
    | tpcPrepare =>
      simp only [ConnSt.apply, ConnSt.tpcPrepare, ConnSt.execTpcCommand,
        execCommand]
      cases tx <;> cases oracle <;> simp_all <;> split_ifs <;> simp_all
    | tpcCommit xid =>
      simp only [ConnSt.apply, ConnSt.tpcCommit, ConnSt.finishTpc,
        ConnSt.execTpcCommand, ConnSt.commitInner, execCommand]
      cases xid <;> cases tx <;> cases oracle <;> simp_all <;>
        split_ifs <;> simp_all
    | tpcRollback xid =>
      simp only [ConnSt.apply, ConnSt.tpcRollback, ConnSt.finishTpc,
        ConnSt.execTpcCommand, ConnSt.rollbackInner, execCommand]
      cases xid <;> cases tx <;> cases oracle <;> simp_all <;>
        split_ifs <;> simp_all
    | setSession iso ro df ac' =>
      by_cases hst : st = ConnStatus.ready
      · subst hst
        cases tx with
        | some x => simp at htpc
        | none =>
          suffices hpost :
              ((ConnSt.apply ⟨false, false, ConnStatus.ready, ac, none, mk⟩
                  (ConnOp.setSession iso ro df ac') oracle).1.closed = false) ∧
              ((ConnSt.apply ⟨false, false, ConnStatus.ready, ac, none, mk⟩
                  (ConnOp.setSession iso ro df ac') oracle).1.asyncFlag = false) ∧
              ((ConnSt.apply ⟨false, false, ConnStatus.ready, ac, none, mk⟩
                  (ConnOp.setSession iso ro df ac') oracle).1.tpcXid = none) by
            refine ⟨hpost.1, hpost.2.1, fun hsome => ?_⟩
            rw [hpost.2.2] at hsome
            simp at hsome
          unfold ConnSt.apply ConnSt.setSession
          dsimp only
          repeat' split
          all_goals first | exact ⟨rfl, rfl, rfl⟩ | simp_all
      · have hout : (ConnSt.apply ⟨false, false, st, ac, tx, mk⟩
            (ConnOp.setSession iso ro df ac') oracle) =
            (⟨false, false, st, ac, tx, mk⟩,
             some (.programmingError "not valid in transaction")) := by
          unfold ConnSt.apply ConnSt.setSession
          dsimp only
          rw [if_neg (by simp), if_pos (by simpa using hst)]
        rw [hout]
        exact ⟨rfl, rfl, htpc⟩

/-- C5: in every state reachable from a fresh synchronous connection
by any sequence of the modelled operations (`tpc_begin`,
`tpc_prepare`, `tpc_commit`, `tpc_rollback`, `commit`, `rollback`,
`set_session`, `reset`) under any server behaviour, a stored TPC
transaction id forces the status to `STATUS_BEGIN`
(`STATUS_IN_TRANSACTION`) or `STATUS_PREPARED`, and autocommit is
never on while a TPC transaction id is stored. -/
theorem reachable_tpc_invariant (s : ConnSt) (h : Reachable s)
    (htpc : s.tpcXid.isSome = true) :
    (s.status = .begin ∨ s.status = .prepared) ∧ s.autocommit = false :=
  (reachable_inv h).2.2 htpc

/-- C5 witness: the state right after `tpc_begin` on a fresh
connection stores a TPC xid, and the invariant instantiates there. -/
theorem reachable_tpc_invariant_witness :
    ((ConnSt.init.apply (.tpcBegin ⟨"gtrid"⟩) [true]).1.status = .begin ∨
      (ConnSt.init.apply (.tpcBegin ⟨"gtrid"⟩) [true]).1.status = .prepared) ∧
    (ConnSt.init.apply (.tpcBegin ⟨"gtrid"⟩) [true]).1.autocommit = false :=
  reachable_tpc_invariant _ (Reachable.step _ _ Reachable.init) rfl

/-- C6: whenever a TPC transaction is open on a reachable connection
state, `commit()` and `rollback()` raise `ProgrammingError` (from
`check_tpc`) and leave the connection state unchanged. -/
theorem commit_rollback_during_tpc (s : ConnSt) (oracle : List Bool)
    (h : Reachable s) (htpc : s.tpcXid.isSome = true) :
    s.commit oracle =
      (s, some (.programmingError
        "cannot be used during a two-phase transaction")) ∧
    s.rollback oracle =
      (s, some (.programmingError
        "cannot be used during a two-phase transaction")) := by
  obtain ⟨hcl, haf, _⟩ := reachable_inv h
  constructor
  · unfold ConnSt.commit ConnSt.guardClosedAsyncTpc
    simp [hcl, haf, htpc]
  · unfold ConnSt.rollback ConnSt.guardClosedAsyncTpc
    simp [hcl, haf, htpc]

/-- C6 witness: after `tpc_begin` on a fresh connection, `commit()`
and `rollback()` raise and do not change the state. -/
theorem commit_rollback_during_tpc_witness :
    (ConnSt.init.apply (.tpcBegin ⟨"gtrid"⟩) [true]).1.commit [] =
      ((ConnSt.init.apply (.tpcBegin ⟨"gtrid"⟩) [true]).1,
       some (.programmingError
         "cannot be used during a two-phase transaction")) ∧
    (ConnSt.init.apply (.tpcBegin ⟨"gtrid"⟩) [true]).1.rollback [] =
      ((ConnSt.init.apply (.tpcBegin ⟨"gtrid"⟩) [true]).1,
       some (.programmingError
         "cannot be used during a two-phase transaction")) :=
  commit_rollback_during_tpc _ [] (Reachable.step _ _ Reachable.init) rfl

/-- Helper: a successful scan never mixes placeholder styles.  If the
scanning loop of `_combine_cmd_params` returns normally from a state
whose `named_args_format` flag is `naf`, then the remaining template
holds no token of the opposite style, and in particular not tokens of
both styles. -/
theorem scanLoop_ok_styles (params : Params) (conn : ConnM) :
    ∀ (k : Nat) (l : List Char), l.length ≤ k →
      ∀ pn av naf res, scanLoop params conn l pn av naf = .ok res →
        (naf = some true → false ∉ phTokens l) ∧
        (naf = some false → true ∉ phTokens l) ∧
        ¬(false ∈ phTokens l ∧ true ∈ phTokens l) := by
  intro k
  induction k with
  | zero =>
    intro l hl pn av naf res hok
    have : l = [] := List.eq_nil_of_length_eq_zero (by omega)
    subst this
    simp [phTokens]
  | succ k ih =>
    intro l hl pn av naf res hok
    match l with
    | [] => simp [phTokens]
    | c :: rest =>
      simp only [List.length_cons] at hl
      unfold scanLoop at hok
      by_cases hc : c = '%'
      case neg =>
        rw [if_neg hc] at hok
        have htok : phTokens (c :: rest) = phTokens rest := by
          conv_lhs => unfold phTokens
          rw [if_neg hc]
        rw [htok]
        exact ih rest (by omega) _ _ _ _ hok
      case pos =>
        subst hc
        rw [if_pos rfl] at hok
        match rest with
        | [] => simp at hok
        | c1 :: r2 =>
          simp only [List.length_cons] at hl
          by_cases hc1 : c1 = '%'
          case pos =>
            subst hc1
            simp only [if_pos rfl] at hok
            have htok : phTokens ('%' :: '%' :: r2) = phTokens r2 := by
              conv_lhs => unfold phTokens
              simp
            rw [htok]
            exact ih r2 (by omega) _ _ _ _ hok
          case neg =>
            by_cases hc2 : c1 = '('
            case pos =>
              subst hc2
              simp only [if_neg hc1, if_pos rfl] at hok
              by_cases hnaf : naf = some false
              case pos =>
                rw [if_pos hnaf] at hok
                simp at hok
              case neg =>
                rw [if_neg hnaf] at hok
                cases hfind : pyFindIn r2 ')' (match listFind '%' r2 with
                    | some m => m
                    | none => r2.length - 1) with
                | none =>
                  rw [hfind] at hok
                  simp at hok
                | some e =>
                  rw [hfind] at hok
                  dsimp only at hok
                  have htok : phTokens ('%' :: '(' :: r2) =
                      true :: phTokens ('(' :: r2) := by
                    conv_lhs => unfold phTokens
                    simp [hfind]
                  cases hadd : argAddNamed av (String.mk (r2.take e)) params conn with
                  | error err =>
                    rw [hadd] at hok
                    simp at hok
                  | ok av' =>
                    rw [hadd] at hok
                    dsimp only at hok
                    cases hget : r2.get? (e + 1) with
                    | none =>
                      rw [hget] at hok
                      simp at hok
                    | some fc =>
                      rw [hget] at hok
                      dsimp only at hok
                      by_cases hfc : fc = 's' ∨ fc = ' '
                      case neg =>
                        rw [if_neg hfc] at hok
                        simp at hok
                      case pos =>
                        rw [if_pos hfc] at hok
                        have IH := ih ('(' :: r2) (by simp; omega) _ _ _ _ hok
                        rw [htok]
                        refine ⟨?_, ?_, ?_⟩
                        · intro _
                          simp only [List.mem_cons]
                          rintro (h | h)
                          · simp at h
                          · exact (IH.1 rfl) h
                        · intro h
                          exact absurd h hnaf
                        · rintro ⟨hf, -⟩
                          rcases List.mem_cons.mp hf with h | h
                          · simp at h
                          · exact (IH.1 rfl) h
            case neg =>
              simp only [if_neg hc1, if_neg hc2] at hok
              by_cases hnaf : naf = some true
              case pos =>
                rw [if_pos hnaf] at hok
                simp at hok
              case neg =>
                rw [if_neg hnaf] at hok
                have htok : phTokens ('%' :: c1 :: r2) = false :: phTokens r2 := by
                  conv_lhs => unfold phTokens
                  simp [hc1, hc2]
                by_cases hfc : c1 = 's' ∨ c1 = ' '
                case neg =>
                  rw [if_neg hfc] at hok
                  simp at hok
                case pos =>
                  rw [if_pos hfc] at hok
                  cases hidx : Params.getByIdx params pn with
                  | error err =>
                    rw [hidx] at hok
                    simp at hok
                  | ok v =>
                    rw [hidx] at hok
                    dsimp only at hok
                    cases hq : _getquoted v conn with
                    | error err =>
                      rw [hq] at hok
                      simp at hok
                    | ok q =>
                      rw [hq] at hok
                      dsimp only at hok
                      cases happ : argAppend av q with
                      | error err =>
                        rw [happ] at hok
                        simp at hok
                      | ok av' =>
                        rw [happ] at hok
                        dsimp only at hok
                        have IH := ih r2 (by omega) _ _ _ _ hok
                        rw [htok]
                        refine ⟨?_, ?_, ?_⟩
                        · intro h
                          exact absurd h hnaf
                        · intro _
                          simp only [List.mem_cons]
                          rintro (h | h)
                          · simp at h
                          · exact (IH.2.1 rfl) h
                        · rintro ⟨-, ht⟩
                          rcases List.mem_cons.mp ht with h | h
                          · simp at h
                          · exact (IH.2.1 rfl) h

/-- Helper: a template without `%` has no placeholder tokens. -/
theorem phTokens_nil_of_no_percent :
    ∀ (l : List Char), l.contains '%' = false → phTokens l = [] := by
  intro l
  induction l with
  | nil => simp [phTokens]
  | cons c rest ih =>
    intro h
    simp only [List.contains_cons, Bool.or_eq_false_iff, beq_eq_false_iff_ne,
      ne_eq] at h
    conv_lhs => unfold phTokens
    rw [if_neg (fun hc => h.1 hc.symm)]
    exact ih h.2

/-- C2: a template holding at least one positional (`%s`-style) and at
least one named (`%(name)s`-style) placeholder makes
`_combine_cmd_params` raise — for every parameter set and connection —
before any query text is produced, so no mixed-style template is ever
submitted. -/
theorem mixed_placeholder_styles_raise (cmd : List Char) (params : Params)
    (conn : ConnM)
    (hpos : false ∈ phTokens cmd) (hnamed : true ∈ phTokens cmd) :
    ∃ e, _combine_cmd_params cmd params conn = .error e := by
  unfold _combine_cmd_params
  have hcontains : cmd.contains '%' = true := by
    by_contra hnc
    have hempty := phTokens_nil_of_no_percent cmd (by simpa using hnc)
    rw [hempty] at hpos
    simp at hpos
  rw [if_neg (show ¬¬(cmd.contains '%' = true) by rw [hcontains]; simp)]
  cases hscan : scanLoop params conn cmd 0 .noneAV none with
  | error e =>
    exact ⟨e, rfl⟩
  | ok res =>
    exfalso
    exact (scanLoop_ok_styles params conn cmd.length cmd (le_refl _)
      0 .noneAV none res hscan).2.2 ⟨hpos, hnamed⟩

/-- C2 witness: the template `a%s %(b)s` mixes both styles and raises
for a concrete parameter set and connection. -/
theorem mixed_placeholder_styles_raise_witness :
    ∃ e, _combine_cmd_params ['a', '%', 's', ' ', '%', '(', 'b', ')', 's']
      (Params.seq []) ⟨fun s => s⟩ = .error e := by
  refine mixed_placeholder_styles_raise _ _ _ ?_ ?_ <;>
    simp [phTokens, pyFindIn, listFind]

/-! Helpers for the `Xid` round trip: correctness of the python 2
base64 codec on its own output. -/

theorem b64index_b64char : ∀ n, n < 64 → b64index (b64char n) = some n := by
  decide

theorem b64char_ne_pad : ∀ n, n < 64 → b64char n ≠ '=' := by decide

theorem b64char_props : ∀ n, n < 64 →
    b64char n ≠ '\n' ∧ b64char n ≠ '_' := by decide

theorem listFind_isSome_of_mem {c : Char} :
    ∀ {l : List Char}, c ∈ l → (listFind c l).isSome = true := by
  intro l
  induction l with
  | nil => intro h; cases h
  | cons x xs ih =>
    intro h
    unfold listFind
    by_cases hx : x = c
    · simp [hx]
    · have : c ∈ xs := by
        rcases List.mem_cons.mp h with h1 | h1
        · exact absurd h1.symm hx
        · exact h1
      have hsome := ih this
      simp only [if_neg hx]
      cases h2 : listFind c xs with
      | none => rw [h2] at hsome; simp at hsome
      | some v => simp [h2]

theorem b64char_mem_alphabet (n : Nat) : b64char n ∈ b64alphabet := by
  unfold b64char
  by_cases h : n < b64alphabet.length
  · rw [List.getD_eq_getElem _ _ h]
    exact List.getElem_mem h
  · rw [List.getD_eq_default _ _ (by omega)]
    decide

theorem b64keep_b64char (n : Nat) : b64keep (b64char n) = true := by
  unfold b64keep b64index
  simp [listFind_isSome_of_mem (b64char_mem_alphabet n)]

theorem b64keep_pad : b64keep '=' = true := by decide

theorem b64encodeRaw_no_underscore : ∀ (k : Nat) (bs : List Nat),
    bs.length ≤ k → '_' ∉ b64encodeRaw bs := by
  intro k
  induction k with
  | zero =>
    intro bs hk
    have : bs = [] := List.eq_nil_of_length_eq_zero (by omega)
    subst this
    simp [b64encodeRaw]
  | succ k ih =>
    intro bs hk
    have hchar : ∀ n, '_' ≠ b64char n := by
      intro n h
      have := b64char_mem_alphabet n
      rw [← h] at this
      exact absurd this (by decide)
    match bs with
    | [] => simp [b64encodeRaw]
    | [a] =>
      simp only [b64encodeRaw, List.mem_cons, List.mem_singleton]
      rintro (h | h | h | h | h) <;> first
        | exact hchar _ h
        | simp_all
    | [a, b] =>
      simp only [b64encodeRaw, List.mem_cons, List.mem_singleton]
      rintro (h | h | h | h | h) <;> first
        | exact hchar _ h
        | simp_all
    | a :: b :: c :: rest =>
      simp only [b64encodeRaw, List.mem_cons]
      rintro (h | h | h | h | h) <;> first
        | exact hchar _ h
        | exact ih rest (by simp at hk; omega) h

theorem b64encodeRaw_filter : ∀ (k : Nat) (bs : List Nat), bs.length ≤ k →
    (b64encodeRaw bs).filter b64keep = b64encodeRaw bs := by
  intro k
  induction k with
  | zero =>
    intro bs hk
    have : bs = [] := List.eq_nil_of_length_eq_zero (by omega)
    subst this
    simp [b64encodeRaw]
  | succ k ih =>
    intro bs hk
    match bs with
    | [] => simp [b64encodeRaw]
    | [a] => simp [b64encodeRaw, List.filter_cons, b64keep_b64char, b64keep_pad]
    | [a, b] => simp [b64encodeRaw, List.filter_cons, b64keep_b64char, b64keep_pad]
    | a :: b :: c :: rest =>
      simp only [b64encodeRaw, List.filter_cons, b64keep_b64char, if_true]
      rw [ih rest (by simp at hk; omega)]

theorem a2bLoop_step0 (v : Nat) (hv : v < 64) (lc : Nat) (r : List Char) :
    a2bLoop (b64char v :: r) 0 lc 0 = a2bLoop r 1 (lc * 64 + v) 6 := by
  conv_lhs => unfold a2bLoop
  rw [if_neg (b64char_ne_pad v hv), b64index_b64char v hv]
  dsimp only
  rw [if_neg (by omega)]

theorem a2bLoop_step1 (v : Nat) (hv : v < 64) (lc : Nat) (r : List Char) :
    a2bLoop (b64char v :: r) 1 lc 6 =
      match a2bLoop r 2 ((lc * 64 + v) % 16) 4 with
      | some bs => some ((lc * 64 + v) / 16 % 256 :: bs)
      | none => none := by
  conv_lhs => unfold a2bLoop
  rw [if_neg (b64char_ne_pad v hv), b64index_b64char v hv]
  dsimp only
  rw [if_pos (by omega)]
  norm_num

theorem a2bLoop_step2 (v : Nat) (hv : v < 64) (lc : Nat) (r : List Char) :
    a2bLoop (b64char v :: r) 2 lc 4 =
      match a2bLoop r 3 ((lc * 64 + v) % 4) 2 with
      | some bs => some ((lc * 64 + v) / 4 % 256 :: bs)
      | none => none := by
  conv_lhs => unfold a2bLoop
  rw [if_neg (b64char_ne_pad v hv), b64index_b64char v hv]
  dsimp only
  rw [if_pos (by omega)]
  norm_num

theorem a2bLoop_step3 (v : Nat) (hv : v < 64) (lc : Nat) (r : List Char) :
    a2bLoop (b64char v :: r) 3 lc 2 =
      match a2bLoop r 0 0 0 with
      | some bs => some ((lc * 64 + v) % 256 :: bs)
      | none => none := by
  conv_lhs => unfold a2bLoop
  rw [if_neg (b64char_ne_pad v hv), b64index_b64char v hv]
  dsimp only
  rw [if_pos (by omega)]
  norm_num
  rw [Nat.mod_one]

theorem a2bLoop_pad2 (lc : Nat) (r : List Char) :
    a2bLoop ('=' :: '=' :: r) 2 lc 4 = some [] := by
  conv_lhs => unfold a2bLoop
  rw [if_pos rfl, if_pos (Or.inr ⟨rfl, rfl⟩)]

theorem a2bLoop_pad3 (lc : Nat) (r : List Char) :
    a2bLoop ('=' :: r) 3 lc 2 = some [] := by
  conv_lhs => unfold a2bLoop
  rw [if_pos rfl, if_pos (Or.inl rfl)]

theorem a2bLoop_encodeRaw : ∀ (k : Nat) (bs : List Nat), bs.length ≤ k →
    (∀ b ∈ bs, b < 256) → a2bLoop (b64encodeRaw bs) 0 0 0 = some bs := by
  intro k
  induction k with
  | zero =>
    intro bs hk _
    have : bs = [] := List.eq_nil_of_length_eq_zero (by omega)
    subst this
    rfl
  | succ k ih =>
    intro bs hk hlt
    match bs with
    | [] => rfl
    | [a] =>
      have ha : a < 256 := hlt a (by simp)
      rw [show b64encodeRaw [a] =
        [b64char (a / 4), b64char (a % 4 * 16), '=', '='] from rfl]
      rw [a2bLoop_step0 _ (by omega), a2bLoop_step1 _ (by omega), a2bLoop_pad2]
      dsimp only
      simp only [Option.some.injEq, List.cons.injEq, and_true]
      omega
    | [a, b] =>
      have ha : a < 256 := hlt a (by simp)
      have hb : b < 256 := hlt b (by simp)
      rw [show b64encodeRaw [a, b] = [b64char (a / 4),
        b64char (a % 4 * 16 + b / 16), b64char (b % 16 * 4), '='] from rfl]
      rw [a2bLoop_step0 _ (by omega), a2bLoop_step1 _ (by omega),
          a2bLoop_step2 _ (by omega), a2bLoop_pad3]
      dsimp only
      simp only [Option.some.injEq, List.cons.injEq, and_true]
      refine ⟨by omega, by omega⟩
    | a :: b :: c :: rest =>
      have ha : a < 256 := hlt a (by simp)
      have hb : b < 256 := hlt b (by simp)
      have hc : c < 256 := hlt c (by simp)
      rw [show b64encodeRaw (a :: b :: c :: rest) = b64char (a / 4) ::
        b64char (a % 4 * 16 + b / 16) :: b64char (b % 16 * 4 + c / 64) ::
        b64char (c % 64) :: b64encodeRaw rest from rfl]
      rw [a2bLoop_step0 _ (by omega), a2bLoop_step1 _ (by omega),
          a2bLoop_step2 _ (by omega), a2bLoop_step3 _ (by omega)]
      rw [ih rest (by simp at hk; omega) (fun x hx => hlt x (by simp [hx]))]
      dsimp only
      simp only [Option.some.injEq, List.cons.injEq]
      refine ⟨by omega, by omega, by omega, trivial⟩

theorem b64encodeRaw_append : ∀ (k : Nat) (l1 l2 : List Nat), l1.length ≤ k →
    l1.length % 3 = 0 →
    b64encodeRaw (l1 ++ l2) = b64encodeRaw l1 ++ b64encodeRaw l2 := by
  intro k
  induction k with
  | zero =>
    intro l1 l2 hk _
    have : l1 = [] := List.eq_nil_of_length_eq_zero (by omega)
    subst this
    simp [b64encodeRaw]
  | succ k ih =>
    intro l1 l2 hk h3
    match l1 with
    | [] => simp [b64encodeRaw]
    | [a] => simp at h3
    | [a, b] => simp at h3
    | a :: b :: c :: rest =>
      simp only [List.cons_append]
      conv_lhs => unfold b64encodeRaw
      conv_rhs => rw [show b64encodeRaw (a :: b :: c :: rest) =
        b64char (a / 4) :: b64char (a % 4 * 16 + b / 16) ::
          b64char (b % 16 * 4 + c / 64) :: b64char (c % 64) ::
          b64encodeRaw rest from rfl]
      simp only [List.cons_append, List.cons.injEq, true_and]
      exact ih rest l2 (by simp at hk; omega) (by simp at h3; omega)

/-- The lines emitted by `encodestring`: for a non-empty input the
output is a newline-terminated block whose base64 content (everything
the decoder keeps) is exactly the raw encoding of the input. -/
theorem b64encodestring_structure : ∀ (k : Nat) (bs : List Nat),
    bs.length ≤ k → bs ≠ [] →
    ∃ y, b64encodestring bs = y ++ ['\n'] ∧
      y.filter b64keep = b64encodeRaw bs := by
  intro k
  induction k with
  | zero =>
    intro bs hk hne
    have : bs = [] := List.eq_nil_of_length_eq_zero (by omega)
    exact absurd this hne
  | succ k ih =>
    intro bs hk hne
    unfold b64encodestring
    rw [if_neg (by simpa using hne)]
    by_cases hrest : bs.drop 57 = []
    · rw [hrest]
      refine ⟨b64encodeRaw (bs.take 57), ?_, ?_⟩
      · unfold b64encodestring
        simp
      · have htake : bs.take 57 = bs := by
          apply List.take_of_length_le
          have := congrArg List.length hrest
          simp [List.length_drop] at this
          omega
        rw [htake, b64encodeRaw_filter bs.length bs (le_refl _)]
    · obtain ⟨y2, hy2, hfy2⟩ := ih (bs.drop 57)
        (by
          have hlen : bs.length ≤ k + 1 := hk
          have hpos : 0 < bs.length := by
            cases bs with
            | nil => exact absurd rfl hne
            | cons x xs => simp
          simp [List.length_drop]
          omega)
        hrest
      rw [hy2]
      refine ⟨b64encodeRaw (bs.take 57) ++ '\n' :: y2, by simp, ?_⟩
      have h57 : (bs.take 57).length = 57 := by
        have hgt : 57 < bs.length := by
          by_contra hcon
          push_neg at hcon
          exact hrest (List.drop_eq_nil_of_le hcon)
        rw [List.length_take]
        omega
      rw [List.filter_append, List.filter_cons]
      rw [show b64keep '\n' = false from by decide]
      simp only [Bool.false_eq_true, if_false]
      rw [hfy2, b64encodeRaw_filter (bs.take 57).length _ (le_refl _)]
      rw [← b64encodeRaw_append (bs.take 57).length _ _ (le_refl _) (by rw [h57])]
      rw [List.take_append_drop]

/-- `str.decode('base64')` inverts `str.encode('base64')[:-1]` on
byte strings (bounded bytes). -/
theorem b64decodestring_encodestring (bs : List Nat)
    (hlt : ∀ b ∈ bs, b < 256) :
    b64decodestring ((b64encodestring bs).dropLast) = some bs := by
  by_cases hne : bs = []
  · subst hne
    have : b64encodestring [] = [] := by
      unfold b64encodestring
      simp
    rw [this]
    rfl
  · obtain ⟨y, hy, hfy⟩ := b64encodestring_structure bs.length bs (le_refl _) hne
    rw [hy, List.dropLast_concat]
    unfold b64decodestring
    rw [hfy]
    exact a2bLoop_encodeRaw bs.length bs (le_refl _) hlt

theorem natOfDigits_append_digit (l : List Char) (d : Char) :
    natOfDigits (l ++ [d]) = natOfDigits l * 10 + (d.toNat - 48) := by
  unfold natOfDigits
  rw [List.foldl_append]
  rfl

theorem natDigitsAux_correct : ∀ (k n : Nat), n ≤ k →
    natOfDigits (natDigitsAux n) = n := by
  intro k
  induction k with
  | zero =>
    intro n hn
    have : n = 0 := by omega
    subst this
    unfold natDigitsAux natOfDigits
    simp
  | succ k ih =>
    intro n hn
    unfold natDigitsAux
    by_cases h0 : n = 0
    · subst h0
      unfold natOfDigits
      simp
    · rw [if_neg h0, natOfDigits_append_digit, ih (n / 10) (by omega)]
      have hd : ∀ m, m < 10 → (Char.ofNat (48 + m)).toNat = 48 + m := by decide
      rw [hd (n % 10) (by omega)]
      omega

theorem natDigitsAux_chars : ∀ (k n : Nat), n ≤ k →
    ∀ c ∈ natDigitsAux n, c.isDigit = true ∧ c ≠ '_' := by
  intro k
  induction k with
  | zero =>
    intro n hn c hc
    have : n = 0 := by omega
    subst this
    unfold natDigitsAux at hc
    simp at hc
  | succ k ih =>
    intro n hn c hc
    unfold natDigitsAux at hc
    by_cases h0 : n = 0
    · rw [if_pos h0] at hc
      simp at hc
    · rw [if_neg h0] at hc
      rcases List.mem_append.mp hc with h | h
      · exact ih (n / 10) (by omega) c h
      · have hd : ∀ m, m < 10 →
            (Char.ofNat (48 + m)).isDigit = true ∧ Char.ofNat (48 + m) ≠ '_' := by
          decide
        rcases List.mem_singleton.mp h with rfl
        exact hd (n % 10) (by omega)

theorem natDigits_correct (n : Nat) : natOfDigits (natDigits n) = n := by
  unfold natDigits
  by_cases h0 : n = 0
  · subst h0
    simp
    decide
  · rw [if_neg h0]
    exact natDigitsAux_correct n n (le_refl n)

theorem natDigits_chars (n : Nat) :
    ∀ c ∈ natDigits n, c.isDigit = true ∧ c ≠ '_' := by
  unfold natDigits
  by_cases h0 : n = 0
  · subst h0
    simp
  · rw [if_neg h0]
    exact natDigitsAux_chars n n (le_refl n)

theorem natDigits_ne_nil (n : Nat) : natDigits n ≠ [] := by
  unfold natDigits
  by_cases h0 : n = 0
  · simp [h0]
  · rw [if_neg h0]
    unfold natDigitsAux
    rw [if_neg h0]
    simp

theorem takeWhile_append_stop (p : Char → Bool) :
    ∀ (l1 : List Char) (c2 : Char) (l2 : List Char),
      (∀ c ∈ l1, p c = true) → p c2 = false →
      (l1 ++ c2 :: l2).takeWhile p = l1 := by
  intro l1
  induction l1 with
  | nil =>
    intro c2 l2 _ hp
    simp [List.takeWhile_cons, hp]
  | cons x xs ih =>
    intro c2 l2 hall hp
    simp only [List.cons_append, List.takeWhile_cons, hall x (by simp), if_true]
    rw [ih c2 l2 (fun c hc => hall c (by simp [hc])) hp]

theorem listFind_append_cons (c : Char) :
    ∀ (l1 l2 : List Char), c ∉ l1 →
      listFind c (l1 ++ c :: l2) = some l1.length := by
  intro l1
  induction l1 with
  | nil =>
    intro l2 _
    unfold listFind
    simp
  | cons x xs ih =>
    intro l2 hmem
    have hx : ¬ x = c := fun h => hmem (by simp [h])
    rw [List.cons_append]
    unfold listFind
    rw [if_neg hx, ih l2 (fun h => hmem (List.mem_cons_of_mem x h))]
    simp

theorem b64encodestring_no_underscore : ∀ (k : Nat) (bs : List Nat),
    bs.length ≤ k → '_' ∉ b64encodestring bs := by
  intro k
  induction k with
  | zero =>
    intro bs hk
    have : bs = [] := List.eq_nil_of_length_eq_zero (by omega)
    subst this
    unfold b64encodestring
    simp
  | succ k ih =>
    intro bs hk
    unfold b64encodestring
    by_cases hbs : bs.isEmpty
    · simp [hbs]
    · rw [if_neg (by simpa using hbs)]
      intro hmem
      rcases List.mem_append.mp hmem with h | h
      · exact b64encodeRaw_no_underscore (bs.take 57).length _ (le_refl _) h
      · rcases List.mem_cons.mp h with h1 | h1
        · simp at h1
        · have hpos : 0 < bs.length := by
            cases bs with
            | nil => simp at hbs
            | cons x xs => simp
          exact ih (bs.drop 57) (by simp [List.length_drop]; omega) h1

theorem stringOfBytes_bytesOfString (s : String) :
    stringOfBytes (bytesOfString s) = s := by
  unfold stringOfBytes bytesOfString
  rw [List.map_map]
  have hcomp : (Char.ofNat ∘ Char.toNat) = id := funext fun c => Char.ofNat_toNat c
  rw [hcomp, List.map_id]
  rfl

theorem bytesOfString_lt_256 (s : String) (h : validXidField s = true) :
    ∀ b ∈ bytesOfString s, b < 256 := by
  intro b hb
  unfold bytesOfString at hb
  obtain ⟨c, hc, rfl⟩ := List.mem_map.mp hb
  unfold validXidField at h
  rw [Bool.and_eq_true] at h
  have := List.all_eq_true.mp h.2 c hc
  rw [Bool.and_eq_true] at this
  have h2 := this.2
  simp at h2
  omega

theorem xid_tid_no_underscore (s : String) :
    '_' ∉ (b64encodestring (bytesOfString s)).dropLast := fun h =>
  b64encodestring_no_underscore (bytesOfString s).length _ (le_refl _)
    ((List.dropLast_sublist _).mem h)

/-- C9: `from_string` inverts `as_tid` on every `Xid` with a set
format id (in the 31-bit range `Xid.__init__` accepts) and printable
string fields of at most 64 characters; and on any input the `try`
block of `from_string` cannot parse, it does not fail but returns an
identifier with no format id whose `gtrid` is the whole input. -/
theorem xid_roundtrip_and_fallback :
    (∀ (fid : Nat) (gtrid bqual : String),
      fid ≤ 0x7FFFFFFF → validXidField gtrid = true →
      validXidField bqual = true →
      XidRec.from_string (XidRec.as_tid ⟨some fid, gtrid, some bqual⟩) =
        ⟨some fid, gtrid, some bqual⟩) ∧
    (∀ s : String, parseXidToken s = none →
      XidRec.from_string s = ⟨none, s, none⟩) := by
  constructor
  · intro fid gtrid bqual hfid hval1 hval2
    have hbytes1 := bytesOfString_lt_256 gtrid hval1
    have hbytes2 := bytesOfString_lt_256 bqual hval2
    set tid2 := (b64encodestring (bytesOfString gtrid)).dropLast with htid2
    set tid3 := (b64encodestring (bytesOfString bqual)).dropLast with htid3
    have hu2 : '_' ∉ tid2 := xid_tid_no_underscore gtrid
    have hu3 : '_' ∉ tid3 := xid_tid_no_underscore bqual
    have hastid : XidRec.as_tid ⟨some fid, gtrid, some bqual⟩ =
        String.mk (natDigits fid ++ '_' :: (tid2 ++ '_' :: tid3)) := rfl
    rw [hastid]
    unfold XidRec.from_string
    have hparse : parseXidToken
        (String.mk (natDigits fid ++ '_' :: (tid2 ++ '_' :: tid3))) =
        some ⟨some fid, gtrid, some bqual⟩ := by
      unfold parseXidToken parseTid
      rw [show (String.mk (natDigits fid ++ '_' :: (tid2 ++ '_' :: tid3))).toList =
        natDigits fid ++ '_' :: (tid2 ++ '_' :: tid3) from rfl]
      rw [takeWhile_append_stop Char.isDigit (natDigits fid) '_'
        (tid2 ++ '_' :: tid3) (fun c hc => (natDigits_chars fid c hc).1)
        (by decide)]
      rw [if_neg (by simpa using natDigits_ne_nil fid)]
      rw [List.drop_left]
      dsimp only
      rw [if_pos rfl]
      rw [listFind_append_cons '_' tid2 tid3 hu2]
      dsimp only
      rw [List.drop_append 1]
      simp only [List.drop_one, List.tail_cons]
      rw [if_neg (by
        simp only [Bool.not_eq_true]
        rw [← Bool.not_eq_true]
        intro hcon
        simp at hcon
        exact hu3 hcon)]
      rw [List.take_left, natDigits_correct fid]
      dsimp only
      rw [show b64decodestring tid2 = some (bytesOfString gtrid) from
        b64decodestring_encodestring (bytesOfString gtrid) hbytes1]
      rw [show b64decodestring tid3 = some (bytesOfString bqual) from
        b64decodestring_encodestring (bytesOfString bqual) hbytes2]
      dsimp only
      unfold XidRec.mk?
      rw [stringOfBytes_bytesOfString, stringOfBytes_bytesOfString]
      rw [if_neg (by simpa using hfid)]
      rw [if_neg (by simpa using hval1)]
      rw [if_neg (by simpa using hval2)]
    rw [hparse]
  · intro s hnone
    unfold XidRec.from_string
    rw [hnone]

/-- C9 witness: a concrete round trip (`1_YWI=_Yw==` for format id 1,
gtrid `ab`, bqual `c`) and a concrete unparsable input. -/
theorem xid_roundtrip_and_fallback_witness :
    XidRec.from_string (XidRec.as_tid ⟨some 1, "ab", some "c"⟩) =
      ⟨some 1, "ab", some "c"⟩ ∧
    XidRec.from_string "hello" = ⟨none, "hello", none⟩ :=
  ⟨xid_roundtrip_and_fallback.1 1 "ab" "c" (by norm_num) (by decide) (by decide),
   xid_roundtrip_and_fallback.2 "hello" rfl⟩

end Psycopg2ct
